import Mathlib

/-!
Shallow embedding of the credits-band detection pipeline of
media-promo-localizer.

Sources embedded:
- apps/API/app/utils/credits_detection.py
- apps/API/app/utils/credits_geometry.py
- apps/API/app/utils/credits_config.py
- apps/API/app/clients/ocr_client.py (only the vertex-order normalizer)
- apps/API/app/models/credits.py and models/jobs.py (data model)

Python floats are modelled as rationals.  Python `sorted` / `list.sort`
(stable sorts) are modelled by `List.insertionSort` with a non-strict
key comparison, which places an element being inserted before the first
element whose key is not smaller; since `insertionSort` folds from the
right this realises exactly the stable order of CPython sorts.
`statistics.stdev` returns a square root; the code only ever compares it
against a constant, so the embedding carries the sample variance and
compares against the squared constant, which is equivalent because both
sides are non-negative.
-/

namespace MediaPromo

/-! ## Python string primitives (ASCII semantics, as used by the sources) -/

/-- Matches Python `s.startswith(pat)` on character lists: `pat` is a prefix. -/
def leadsWith : List Char → List Char → Bool
  | [], _ => true
  | _ :: _, [] => false
  | p :: ps, c :: cs => p = c && leadsWith ps cs

/-- Contiguous-substring test on character lists (Python `pat in hay`). -/
def hasSubList : List Char → List Char → Bool
  | hay, pat =>
    leadsWith pat hay ||
      match hay with
      | [] => false
      | _ :: rest => hasSubList rest pat

/-- Python `pat in hay` for strings (contiguous substring; empty `pat` matches). -/
def strContains (hay pat : String) : Bool :=
  hasSubList hay.data pat.data

/-- Python `s.upper()` (ASCII). -/
def pyUpper (s : String) : String := ⟨s.data.map Char.toUpper⟩

/-- Python `s.lower()` (ASCII). -/
def pyLower (s : String) : String := ⟨s.data.map Char.toLower⟩

/-- Python whitespace, for `str.strip()` and `str.split()`. -/
def pySpaceChar (c : Char) : Bool := c ∈ " \t\n\x0b\x0c\r".data

/-- Python `s.strip()`. -/
def pyStrip (s : String) : String :=
  ⟨((s.data.dropWhile pySpaceChar).reverse.dropWhile pySpaceChar).reverse⟩

/-- Helper for `pySplit`: accumulates the current word (reversed). -/
def pySplitAux : List Char → List Char → List String
  | [], acc => if acc = [] then [] else [⟨acc.reverse⟩]
  | c :: cs, acc =>
    if pySpaceChar c then
      if acc = [] then pySplitAux cs [] else ⟨acc.reverse⟩ :: pySplitAux cs []
    else pySplitAux cs (c :: acc)

/-- Python `s.split()` (split on whitespace runs, no empty words). -/
def pySplit (s : String) : List String := pySplitAux s.data []

/-- Python `s.isupper()` (ASCII: some alphabetic char, and all alphabetic
chars uppercase). -/
def pyIsUpper (s : String) : Bool :=
  s.data.any Char.isAlpha && s.data.all (fun c => !c.isAlpha || c.isUpper)

/-- Python `w[0].isupper()` on a word. -/
def headIsUpper (w : String) : Bool :=
  match w.data with
  | [] => false
  | c :: _ => c.isUpper

/-! ## Python numeric list primitives -/

/-- Python `sum(l)` over floats. -/
def pySum (l : List ℚ) : ℚ := l.foldl (· + ·) 0

/-- Python `min(l)`; the sources only call it on non-empty lists
(the junk value 0 is never reached in guarded call sites). -/
def pyMin (l : List ℚ) : ℚ := l.foldl min (l.headD 0)

/-- Python `max(l)`; see `pyMin` about the junk value. -/
def pyMax (l : List ℚ) : ℚ := l.foldl max (l.headD 0)

/-- Python `statistics.mean` (call sites guard non-emptiness). -/
def pyMean (l : List ℚ) : ℚ := pySum l / (l.length : ℚ)

/-- Non-strict order on rationals, for `List.insertionSort`. -/
def qLe (a b : ℚ) : Prop := a ≤ b

instance : DecidableRel qLe := fun a b => inferInstanceAs (Decidable (a ≤ b))

instance : IsTotal ℚ qLe := ⟨fun a b => le_total a b⟩

instance : IsTrans ℚ qLe := ⟨fun _ _ _ h h' => le_trans h h'⟩

/-- Python `statistics.median` (sorts, then middle element or mean of the two
middle elements; call sites guard non-emptiness). -/
def pyMedian (l : List ℚ) : ℚ :=
  let s := List.insertionSort qLe l
  let n := s.length
  if n % 2 = 1 then s.getD (n / 2) 0
  else (s.getD (n / 2 - 1) 0 + s.getD (n / 2) 0) / 2

/-- Sample variance, i.e. the square of Python `statistics.stdev`
(call sites guard `2 ≤ length`). -/
def sampleVar (l : List ℚ) : ℚ :=
  let μ := pyMean l
  pySum (l.map (fun x => (x - μ) ^ 2)) / ((l.length : ℚ) - 1)

/-! ## Data model (apps/API/app/models/credits.py, models/jobs.py) -/

/-- PointNorm: normalized point.  Pydantic constrains both fields to [0,1];
the range check is modelled in the exception-aware embedding below. -/
structure PointNorm where
  x : ℚ
  y : ℚ
deriving DecidableEq, Repr, Inhabited

/-- QuadNorm: normalized quadrilateral (TL, TR, BR, BL).  Pydantic pins the
length to 4; every constructor call site in the sources supplies 4. -/
structure QuadNorm where
  vertices : List PointNorm
deriving DecidableEq, Repr, Inhabited

/-- RegionGeometry.  `bbox_norm` is `Optional[List[float]]` in the source;
`[]` stands for both Python `None` and `[]` (the code only tests truthiness). -/
structure RegionGeometry where
  quad_norm : QuadNorm
  center_norm : PointNorm
  angle_deg : ℚ
  bbox_norm : List ℚ
deriving DecidableEq, Repr, Inhabited

/-- The side data the OCR client attaches to a region as `region._geometry`:
a dict with keys quad_norm (list of point dicts), center_norm, angle_deg. -/
structure GeomAttr where
  quad_norm : List PointNorm
  center_norm : PointNorm
  angle_deg : ℚ
deriving DecidableEq, Repr, Inhabited

/-- DetectedText (models/jobs.py): text region with a normalized bbox.
`geometryAttr` models the dynamically attached `_geometry`; `none` stands
for an absent attribute (and for an empty, hence falsy, dict). -/
structure DetectedText where
  text : String
  boundingBox : List ℚ
  role : String
  geometryAttr : Option GeomAttr := none
deriving DecidableEq, Repr, Inhabited

/-- Overlay element types (Literal strings in the source). -/
inductive CreditsOverlayType
  | LOGO
  | RATING_BADGE
  | URL
  | SOCIAL_HANDLE
  | UNKNOWN
deriving DecidableEq, Repr, Inhabited

/-- CreditsOverlayElement (always locked). -/
structure CreditsOverlayElement where
  element_type : CreditsOverlayType
  text : Option String
  geometry : RegionGeometry
  locked : Bool := true
deriving DecidableEq, Repr, Inhabited

/-- Credit group types (Literal strings in the source). -/
inductive CreditGroupType
  | TITLE
  | PROPER_NAME
  | CERTIFICATION
  | LOGO_IGNORED
  | UNKNOWN
deriving DecidableEq, Repr, Inhabited

/-- CreditLine: one re-OCR line inside the credits block. -/
structure CreditLine where
  text : String
  geometry : RegionGeometry
  font_height_norm : ℚ
  hints : List String
deriving DecidableEq, Repr, Inhabited

/-- CreditGroup: 1 or 2 semantically grouped credit lines. -/
structure CreditGroup where
  group_type : CreditGroupType
  lines : List CreditLine
  geometry : RegionGeometry
  localizable : Bool
  confidence : ℚ
deriving DecidableEq, Repr, Inhabited

/-- CreditsBlock: the accepted dense cluster. -/
structure CreditsBlock where
  geometry : RegionGeometry
  dominant_angle_deg : ℚ
  source_line_region_ids : List String
  credit_groups : List CreditGroup
  confidence : ℚ
deriving DecidableEq, Repr, Inhabited

/-- CreditsBandDetection: top-level detection result (`debug` dict omitted:
the sources only ever store an empty dict in it). -/
structure CreditsBandDetection where
  band_name : String
  band_bbox_norm : List ℚ
  overlays : List CreditsOverlayElement
  credits_block : Option CreditsBlock
  confidence : ℚ
deriving DecidableEq, Repr, Inhabited

/-! ## Configuration constants (apps/API/app/utils/credits_config.py) -/

def BOTTOM_BAND_Y_MIN : ℚ := 0.70

def BOTTOM_BAND_Y_MAX : ℚ := 1.00

def TOP_LITE_BAND_Y_MIN : ℚ := 0.00

def TOP_LITE_BAND_Y_MAX : ℚ := 0.25

def OVERLAY_AREA_SMALL : ℚ := 0.0020

def OVERLAY_HEIGHT_TINY : ℚ := 0.030

def OVERLAY_ASPECT_WIDE : ℚ := 3.5

def CREDITS_LINE_COUNT_MIN : ℕ := 8

def CREDITS_FONT_HEIGHT_MAX : ℚ := 0.030

def CREDITS_ANGLE_STD_MAX : ℚ := 8.0

def OVER_UNDER_MAX_GAP_Y : ℚ := 0.012

def OVER_UNDER_MIN_X_OVERLAP : ℚ := 0.65

def CREDITS_ROLE_ANCHORS : List String :=
  ["directed by", "written by", "screenplay by", "story by", "produced by",
   "executive producer", "executive producers", "director of photography",
   "production designer", "music by", "edited by", "casting by", "based on",
   "a film by"]

/-! ## Geometry utilities (apps/API/app/utils/credits_geometry.py) -/

/-- bbox_from_quad: axis-aligned envelope of a quad. -/
def bbox_from_quad (q : QuadNorm) : List ℚ :=
  [pyMin (q.vertices.map (·.x)), pyMin (q.vertices.map (·.y)),
   pyMax (q.vertices.map (·.x)), pyMax (q.vertices.map (·.y))]

/-- area_from_bbox. -/
def area_from_bbox (b : List ℚ) : ℚ :=
  if b.length < 4 then 0
  else (b.getD 2 0 - b.getD 0 0) * (b.getD 3 0 - b.getD 1 0)

/-- height_from_bbox. -/
def height_from_bbox (b : List ℚ) : ℚ :=
  if b.length < 4 then 0 else b.getD 3 0 - b.getD 1 0

/-- aspect_ratio_from_bbox (returns 1.0 on short input or zero height). -/
def aspect_ratio_from_bbox (b : List ℚ) : ℚ :=
  if b.length < 4 then 1
  else
    let w := b.getD 2 0 - b.getD 0 0
    let h := b.getD 3 0 - b.getD 1 0
    if h = 0 then 1 else w / h

/-- The `boundingBox` fallback branch of geometry_from_detected_text:
axis-aligned quad built from a bbox of length at least 4
(`region.boundingBox` truthy and `len(bbox) >= 4`; length at least 4
already implies non-emptiness). -/
def geometryFromBBox (r : DetectedText) : Option RegionGeometry :=
  if 4 ≤ r.boundingBox.length then
    let x1 := r.boundingBox.getD 0 0
    let y1 := r.boundingBox.getD 1 0
    let x2 := r.boundingBox.getD 2 0
    let y2 := r.boundingBox.getD 3 0
    some { quad_norm := ⟨[⟨x1, y1⟩, ⟨x2, y1⟩, ⟨x2, y2⟩, ⟨x1, y2⟩]⟩,
           center_norm := ⟨(x1 + x2) / 2, (y1 + y2) / 2⟩,
           angle_deg := 0,
           bbox_norm := [x1, y1, x2, y2] }
  else none

/-- geometry_from_detected_text: prefer the `_geometry` side data (when its
quad has at least 4 vertices, the first 4 are used), else fall back to the
`boundingBox`; `none` when neither is usable.  The image width/height
parameters of the source are unused there and omitted here. -/
def geometry_from_detected_text (r : DetectedText) : Option RegionGeometry :=
  match r.geometryAttr with
  | some g =>
    if 4 ≤ g.quad_norm.length then
      let quad : QuadNorm := ⟨g.quad_norm.take 4⟩
      some { quad_norm := quad,
             center_norm := g.center_norm,
             angle_deg := g.angle_deg,
             bbox_norm := bbox_from_quad quad }
    else geometryFromBBox r
  | none => geometryFromBBox r

/-- font_height_from_geometry: bbox height, falling back to quad extent. -/
def font_height_from_geometry (g : RegionGeometry) : ℚ :=
  if g.bbox_norm ≠ [] then height_from_bbox g.bbox_norm
  else pyMax (g.quad_norm.vertices.map (·.y)) - pyMin (g.quad_norm.vertices.map (·.y))

/-! ## Stage A: band selection (credits_detection.py, _select_candidate_band) -/

/-- Band filter predicate: `hasattr(r, "boundingBox")` always holds in the
model; the source additionally requires `len(r.boundingBox) >= 4` and
`lo <= r.boundingBox[1] <= hi`. -/
def inBand (lo hi : ℚ) (r : DetectedText) : Bool :=
  4 ≤ r.boundingBox.length && lo ≤ r.boundingBox.getD 1 0 && r.boundingBox.getD 1 0 ≤ hi

/-- _select_candidate_band: bottom band first, else top-lite band, else the
empty bottom band. -/
def _select_candidate_band (line_regions : List DetectedText) :
    String × List ℚ × List DetectedText :=
  let bottom := line_regions.filter (inBand BOTTOM_BAND_Y_MIN BOTTOM_BAND_Y_MAX)
  if bottom ≠ [] then
    ("BOTTOM_BAND", [0, BOTTOM_BAND_Y_MIN, 1, BOTTOM_BAND_Y_MAX], bottom)
  else
    let top := line_regions.filter (inBand TOP_LITE_BAND_Y_MIN TOP_LITE_BAND_Y_MAX)
    if top ≠ [] then
      ("TOP_LITE_BAND", [0, TOP_LITE_BAND_Y_MIN, 1, TOP_LITE_BAND_Y_MAX], top)
    else ("BOTTOM_BAND", [0, BOTTOM_BAND_Y_MIN, 1, BOTTOM_BAND_Y_MAX], [])

/-! ## Pass 1: overlay extraction (credits_detection.py, _detect_credits_overlays) -/

def URL_TOKENS : List String :=
  [".COM", ".NET", ".ORG", ".IO", "HTTP://", "HTTPS://", "WWW."]

def RATING_TOKENS : List String := ["RATED", "PG", "G", "R", "NC-17", "MPAA"]

/-- B1 text rules: social handle, then URL signature. -/
def textRule (text : String) : Option CreditsOverlayType :=
  if strContains text "@" then some .SOCIAL_HANDLE
  else if URL_TOKENS.any (fun t => strContains (pyUpper text) t) then some .URL
  else none

/-- B2 geometry rules (run only when no text rule matched and the geometry
bbox is truthy): tiny area, then tiny-and-wide, then rating token. -/
def geomRule (text : String) (g : RegionGeometry) : Option CreditsOverlayType :=
  let area_norm := area_from_bbox g.bbox_norm
  let height_norm := height_from_bbox g.bbox_norm
  let aspect := aspect_ratio_from_bbox g.bbox_norm
  if area_norm < OVERLAY_AREA_SMALL then some .LOGO
  else if height_norm < OVERLAY_HEIGHT_TINY ∧ OVERLAY_ASPECT_WIDE < aspect then some .UNKNOWN
  else if RATING_TOKENS.any (fun t => strContains (pyUpper text) t) then some .RATING_BADGE
  else none

/-- Per-region overlay classification given an extracted geometry; `none`
means the region stays residual. -/
def overlayFromGeom (text : String) (g : RegionGeometry) : Option CreditsOverlayElement :=
  let ot :=
    match textRule text with
    | some o => some o
    | none => if g.bbox_norm ≠ [] then geomRule text g else none
  ot.map fun o =>
    { element_type := o,
      text := if text ≠ "" then some text else none,
      geometry := g,
      locked := true }

/-- Whole per-region Pass 1 outcome: regions without extractable geometry are
residual (the `continue` branch), otherwise the rule chain decides. -/
def overlayFor (r : DetectedText) : Option CreditsOverlayElement :=
  (geometry_from_detected_text r).bind (overlayFromGeom r.text)

/-- _detect_credits_overlays: the loop appends each region either to the
overlay list or to the residual list.  The band bbox and image dimension
parameters of the source are unused in its body and omitted here. -/
def _detect_credits_overlays :
    List DetectedText → List CreditsOverlayElement × List DetectedText
  | [] => ([], [])
  | r :: rs =>
    let rest := _detect_credits_overlays rs
    match overlayFor r with
    | some o => (o :: rest.1, rest.2)
    | none => (rest.1, r :: rest.2)

/-! ## Pass 2: clustering (credits_detection.py, _cluster_regions) -/

/-- Regions with a usable bounding box (`hasattr` always holds in the model). -/
def hasBBox4 (r : DetectedText) : Bool := 4 ≤ r.boundingBox.length

/-- Sort key of `_cluster_regions`: `(y1, x1)` with defaults `(1.0, 0.0)` for
regions without a usable bbox. -/
def clusterSortKey (r : DetectedText) : ℚ × ℚ :=
  (if hasBBox4 r then r.boundingBox.getD 1 0 else 1,
   if hasBBox4 r then r.boundingBox.getD 0 0 else 0)

/-- Lexicographic non-strict order on (y, x) keys. -/
def keyLex (a b : ℚ × ℚ) : Prop := a.1 < b.1 ∨ (a.1 = b.1 ∧ a.2 ≤ b.2)

instance : DecidableRel keyLex := fun a b =>
  inferInstanceAs (Decidable (a.1 < b.1 ∨ (a.1 = b.1 ∧ a.2 ≤ b.2)))

/-- Region order used by the `sorted(..., key=...)` call of _cluster_regions. -/
def regionLe (a b : DetectedText) : Prop := keyLex (clusterSortKey a) (clusterSortKey b)

instance : DecidableRel regionLe := fun a b =>
  inferInstanceAs (Decidable (keyLex (clusterSortKey a) (clusterSortKey b)))

instance : IsTotal DetectedText regionLe := by
  constructor
  intro a b
  rcases lt_trichotomy (clusterSortKey a).1 (clusterSortKey b).1 with h | h | h
  · exact Or.inl (Or.inl h)
  · rcases le_total (clusterSortKey a).2 (clusterSortKey b).2 with h2 | h2
    · exact Or.inl (Or.inr ⟨h, h2⟩)
    · exact Or.inr (Or.inr ⟨h.symm, h2⟩)
  · exact Or.inr (Or.inl h)

instance : IsTrans DetectedText regionLe := by
  constructor
  intro a b c hab hbc
  rcases hab with h1 | ⟨h1, h1x⟩
  · rcases hbc with h2 | ⟨h2, _⟩
    · exact Or.inl (lt_trans h1 h2)
    · exact Or.inl (h2 ▸ h1)
  · rcases hbc with h2 | ⟨h2, h2x⟩
    · exact Or.inl (h1 ▸ h2)
    · exact Or.inr ⟨h1.trans h2, h1x.trans h2x⟩

/-- The y-adjacency and x-overlap test deciding whether a region joins an
existing cluster.  Mirrors the body of the `for cluster in clusters` loop:
member stats are recomputed from members with a usable bbox; empty stats
mean no match; `dy` threshold 0.02; overlap fraction threshold 0.2. -/
def clusterMatch (r : DetectedText) (c : List DetectedText) : Bool :=
  let members := c.filter hasBBox4
  let centers := members.map (fun m => m.boundingBox.getD 1 0)
  if centers = [] then false
  else
    let avg := pySum centers / (centers.length : ℚ)
    let region_y := r.boundingBox.getD 1 0
    let region_x1 := r.boundingBox.getD 0 0
    let region_x2 := r.boundingBox.getD 2 0
    if |region_y - avg| > 0.02 then false
    else
      let cluster_x_min := pyMin (members.map (fun m => m.boundingBox.getD 0 0))
      let cluster_x_max := pyMax (members.map (fun m => m.boundingBox.getD 2 0))
      let overlap_frac :=
        max 0 ((min region_x2 cluster_x_max - max region_x1 cluster_x_min) /
          max (region_x2 - region_x1) (max (cluster_x_max - cluster_x_min) 0.001))
      decide ((0.2 : ℚ) < overlap_frac)

/-- Append the region to the first matching cluster (`some` on success). -/
def tryAttach (r : DetectedText) :
    List (List DetectedText) → Option (List (List DetectedText))
  | [] => none
  | c :: cs =>
    if clusterMatch r c then some ((c ++ [r]) :: cs)
    else (tryAttach r cs).map (c :: ·)

/-- One iteration of the `for region in regions_sorted` loop: regions without
a usable bbox are skipped; otherwise attach to the first matching cluster or
open a new one at the end. -/
def clusterStep (cs : List (List DetectedText)) (r : DetectedText) :
    List (List DetectedText) :=
  if hasBBox4 r then (tryAttach r cs).getD (cs ++ [[r]]) else cs

/-- _cluster_regions: sort by (y1, x1), then the greedy single pass.  The
image dimension parameters of the source are unused in its body. -/
def _cluster_regions (regions : List DetectedText) : List (List DetectedText) :=
  if regions = [] then []
  else (List.insertionSort regionLe regions).foldl clusterStep []

/-! ## Pass 2: scoring (credits_detection.py, _score_cluster) -/

/-- The stats dict built by _score_cluster.  `angle_var` is the sample
variance of the member angles; the source stores `angle_std = sqrt angle_var`
and only compares it against `CREDITS_ANGLE_STD_MAX` (and logs a rounding of
it), so carrying the variance is an equivalent rational representation. -/
structure ClusterStats where
  line_count : ℕ
  median_font_height : ℚ
  angle_mean : ℚ
  angle_var : ℚ
  density : ℚ
  lex_boost : ℚ
  bbox_norm : List ℚ
deriving DecidableEq, Repr, Inhabited

/-- One line contains a lexical role anchor (lower-cased containment). -/
def anchorHit (text : String) : Bool :=
  CREDITS_ROLE_ANCHORS.any (fun a => strContains (pyLower text) a)

/-- Shared core of _score_cluster, parameterised by the list of extracted
member geometries (the python loop collects them in member order). -/
def scoreCore (cluster : List DetectedText) (geoms : List RegionGeometry)
    (band_bbox_norm : List ℚ) : ℚ × Option ClusterStats :=
  let line_count := cluster.length
  let font_heights := geoms.map font_height_from_geometry
  let angles := geoms.map (·.angle_deg)
  let text_lines := cluster.map (·.text)
  let median_font_height := if font_heights ≠ [] then pyMedian font_heights else 0.1
  let angle_mean := if angles ≠ [] then pyMean angles else 0
  let angle_var := if 1 < angles.length then sampleVar angles else 0
  let withBB := cluster.filter hasBBox4
  let all_x := withBB.flatMap (fun r => [r.boundingBox.getD 0 0, r.boundingBox.getD 2 0])
  let all_y := withBB.flatMap (fun r => [r.boundingBox.getD 1 0, r.boundingBox.getD 3 0])
  if all_x = [] ∨ all_y = [] then (0, none)
  else
    let cluster_bbox := [pyMin all_x, pyMin all_y, pyMax all_x, pyMax all_y]
    let cluster_height := pyMax all_y - pyMin all_y
    let density := (line_count : ℚ) / max cluster_height 0.001
    let lex_boost :=
      if text_lines ≠ [] then
        ((text_lines.filter anchorHit).length : ℚ) / (text_lines.length : ℚ)
      else 0
    let band_center_y := (band_bbox_norm.getD 1 0 + band_bbox_norm.getD 3 0) / 2
    let cluster_center_y := (pyMin all_y + pyMax all_y) / 2
    let score :=
      (if CREDITS_LINE_COUNT_MIN ≤ line_count then (1 : ℚ) else 0) +
      (if median_font_height ≤ CREDITS_FONT_HEIGHT_MAX then (1 : ℚ) else 0) +
      (if (10 : ℚ) < density then (1 : ℚ) else 0) +
      (if band_center_y < cluster_center_y then (1 / 2 : ℚ) else 0) +
      (if angle_var ≤ CREDITS_ANGLE_STD_MAX ^ 2 then (1 / 2 : ℚ) else 0) +
      lex_boost
    (score,
     some { line_count := line_count,
            median_font_height := median_font_height,
            angle_mean := angle_mean,
            angle_var := angle_var,
            density := density,
            lex_boost := lex_boost,
            bbox_norm := cluster_bbox })

/-- _score_cluster.  The image dimension parameters of the source are only
forwarded to geometry extraction, which ignores them. -/
def _score_cluster (cluster : List DetectedText) (band_bbox_norm : List ℚ) :
    ℚ × Option ClusterStats :=
  if cluster = [] then (0, none)
  else scoreCore cluster (cluster.filterMap geometry_from_detected_text) band_bbox_norm

/-! ## Pass 2: selection (credits_detection.py, _detect_credits_block) -/

/-- Descending order on the score component, for
`scored_clusters.sort(key=lambda x: x[0], reverse=True)`. -/
def scoreDesc (a b : ℚ × Option ClusterStats × List DetectedText) : Prop := b.1 ≤ a.1

instance : DecidableRel scoreDesc := fun a b => inferInstanceAs (Decidable (b.1 ≤ a.1))

instance : IsTotal (ℚ × Option ClusterStats × List DetectedText) scoreDesc :=
  ⟨fun a b => le_total b.1 a.1⟩

instance : IsTrans (ℚ × Option ClusterStats × List DetectedText) scoreDesc :=
  ⟨fun _ _ _ h h' => le_trans h' h⟩

/-- _compute_oriented_bbox_for_cluster: axis-aligned envelope of all member
quad vertices, defaulting to the full frame.  The angle parameter of the
source is unused in its body and omitted, as are the image dimensions. -/
def _compute_oriented_bbox_for_cluster (cluster : List DetectedText) :
    QuadNorm × List ℚ :=
  let pts := (cluster.filterMap geometry_from_detected_text).flatMap (·.quad_norm.vertices)
  let all_x := pts.map (·.x)
  let all_y := pts.map (·.y)
  if all_x = [] ∨ all_y = [] then
    (⟨[⟨0, 0⟩, ⟨1, 0⟩, ⟨1, 1⟩, ⟨0, 1⟩]⟩, [0, 0, 1, 1])
  else
    let x1 := pyMin all_x
    let y1 := pyMin all_y
    let x2 := pyMax all_x
    let y2 := pyMax all_y
    (⟨[⟨x1, y1⟩, ⟨x2, y1⟩, ⟨x2, y2⟩, ⟨x1, y2⟩]⟩, [x1, y1, x2, y2])

/-- _detect_credits_block: cluster, score, sort by score descending, accept
the head iff its score reaches 2.0.  When accepted, `best_stats` is known to
be populated (every cluster of `_cluster_regions` yields stats); the `getD 0`
mirrors the fact that Python would raise a KeyError on an empty stats dict,
which is unreachable.  The overlays parameter of the source is unused. -/
def _detect_credits_block (residual_regions : List DetectedText)
    (band_bbox_norm : List ℚ) : Option CreditsBlock :=
  if residual_regions = [] then none
  else
    let clusters := _cluster_regions residual_regions
    if clusters = [] then none
    else
      let scored := clusters.map fun c =>
        let p := _score_cluster c band_bbox_norm
        (p.1, p.2, c)
      match List.insertionSort scoreDesc scored with
      | [] => none
      | (best_score, best_stats, best_cluster) :: _ =>
        if best_score < 2 then none
        else
          let dominant_angle := (best_stats.map (·.angle_mean)).getD 0
          let qb := _compute_oriented_bbox_for_cluster best_cluster
          let bbox_norm := qb.2
          some { geometry :=
                   { quad_norm := qb.1,
                     center_norm := ⟨(bbox_norm.getD 0 0 + bbox_norm.getD 2 0) / 2,
                                     (bbox_norm.getD 1 0 + bbox_norm.getD 3 0) / 2⟩,
                     angle_deg := dominant_angle,
                     bbox_norm := bbox_norm },
                 dominant_angle_deg := dominant_angle,
                 source_line_region_ids := [],
                 credit_groups := [],
                 confidence := min 1 (best_score / 5) }

/-- detect_credits_band (image bytes and dimensions omitted: they are only
forwarded to functions that ignore them or to crop extraction, which happens
outside this entry point). -/
def detect_credits_band (line_regions : List DetectedText) :
    Option CreditsBandDetection :=
  let sel := _select_candidate_band line_regions
  let band_name := sel.1
  let band_bbox_norm := sel.2.1
  let band_regions := sel.2.2
  if band_regions = [] then none
  else
    let pass1 := _detect_credits_overlays band_regions
    let overlays := pass1.1
    let residual_regions := pass1.2
    let credits_block :=
      if residual_regions ≠ [] then _detect_credits_block residual_regions band_bbox_norm
      else none
    let confidence := (credits_block.map (·.confidence)).getD 0
    some { band_name := band_name,
           band_bbox_norm := band_bbox_norm,
           overlays := overlays,
           credits_block := credits_block,
           confidence := confidence }

/-! ## Pass 3: semantic grouping (credits_detection.py, group_credits_lines) -/

/-- Build a preliminary CreditLine from a region (skipped without geometry). -/
def mkCreditLine (r : DetectedText) : Option CreditLine :=
  (geometry_from_detected_text r).map fun g =>
    { text := r.text,
      geometry := g,
      font_height_norm := font_height_from_geometry g,
      hints := CREDITS_ROLE_ANCHORS.filter (fun a => strContains (pyLower r.text) a) }

/-- The preliminary credit lines of group_credits_lines, in region order. -/
def creditLinesOf (line_regions : List DetectedText) : List CreditLine :=
  line_regions.filterMap mkCreditLine

/-- Python `line.geometry.bbox_norm or [0, 0, 1, 1]`. -/
def bboxOrDefault (g : RegionGeometry) : List ℚ :=
  if g.bbox_norm ≠ [] then g.bbox_norm else [0, 0, 1, 1]

/-- The over/under qualification test for an ordered pair of credit lines:
strictly smaller font above, centers within the max gap, and x-overlap
fraction at least the threshold. -/
def qualifiesPair (line1 line2 : CreditLine) : Bool :=
  if line2.font_height_norm ≤ line1.font_height_norm then false
  else
    let gap_y := |line2.geometry.center_norm.y - line1.geometry.center_norm.y|
    if OVER_UNDER_MAX_GAP_Y < gap_y then false
    else
      let bbox1 := bboxOrDefault line1.geometry
      let bbox2 := bboxOrDefault line2.geometry
      let x1_min := bbox1.getD 0 0
      let x1_max := bbox1.getD 2 0
      let x2_min := bbox2.getD 0 0
      let x2_max := bbox2.getD 2 0
      let overlap_width := max 0 (min x1_max x2_max - max x1_min x2_min)
      let line1_width := x1_max - x1_min
      let line2_width := x2_max - x2_min
      let overlap_frac := overlap_width / max line1_width (max line2_width 0.001)
      decide (OVER_UNDER_MIN_X_OVERLAP ≤ overlap_frac)

/-- Python `credit_lines[i]` (all uses are in range). -/
def lineAt (ls : List CreditLine) (i : ℕ) : CreditLine := ls.getD i default

/-- The candidate pair list, in the iteration order of the nested loops:
`i` ascending over all indices, `j` ascending over the indices after `i`
(the source enumerates `credit_lines[i+1:]` starting at `i+1`; filtering the
ascending full range by `i < j` yields the same sequence). -/
def over_under_pairs (ls : List CreditLine) : List (ℕ × ℕ) :=
  (List.range ls.length).flatMap fun i =>
    (List.range ls.length).filterMap fun j =>
      if i < j ∧ qualifiesPair (lineAt ls i) (lineAt ls j) then some (i, j) else none

/-- The greedy pair-consumption loop: a pair is accepted iff neither index is
already used; accepting marks both.  Returns the accepted pairs in order and
the final used-index set (as a list; only membership matters). -/
def acceptPairs : List (ℕ × ℕ) → List ℕ → List (ℕ × ℕ) × List ℕ
  | [], used => ([], used)
  | (i, j) :: ps, used =>
    if i ∈ used ∨ j ∈ used then acceptPairs ps used
    else
      let rest := acceptPairs ps (used ++ [i, j])
      ((i, j) :: rest.1, rest.2)

/-- _union_bbox. -/
def _union_bbox (bbox1 bbox2 : List ℚ) : List ℚ :=
  if bbox1.length < 4 ∨ bbox2.length < 4 then [0, 0, 1, 1]
  else
    [min (bbox1.getD 0 0) (bbox2.getD 0 0),
     min (bbox1.getD 1 0) (bbox2.getD 1 0),
     max (bbox1.getD 2 0) (bbox2.getD 2 0),
     max (bbox1.getD 3 0) (bbox2.getD 3 0)]

/-- The certification test of _classify_group for a single line: stripped
text shorter than 10 chars, all-uppercase, containing a period, and
containing a known certification token. -/
def certCond (l : CreditLine) : Bool :=
  let text := pyStrip l.text
  text.data.length < 10 && pyIsUpper text && strContains text "." &&
    (["A.C.E.", "ASC", "A.S.C.", "MPAA"].any fun p => strContains text p)

/-- The TITLE test: lower-cased text contains a role anchor. -/
def titleCond (l : CreditLine) : Bool := anchorHit l.text

/-- The PROPER_NAME test: at least two words and at least 70 percent of the
words start with an uppercase letter. -/
def properNameCond (l : CreditLine) : Bool :=
  let words := pySplit (pyStrip l.text)
  2 ≤ words.length &&
    decide ((words.length : ℚ) * 0.7 ≤
      ((words.filter fun w => w ≠ "" && headIsUpper w).length : ℚ))

/-- _classify_group: certification, then title, then proper name, in fixed
priority (each source loop with an early return is an existential test). -/
def _classify_group (lines : List CreditLine) : CreditGroupType :=
  if lines = [] then .UNKNOWN
  else if lines.any certCond then .CERTIFICATION
  else if lines.any titleCond then .TITLE
  else if lines.any properNameCond then .PROPER_NAME
  else .UNKNOWN

/-- The CreditGroup built for an accepted over/under pair (confidence 0.8). -/
def pairGroup (ls : List CreditLine) (i j : ℕ) : CreditGroup :=
  let line1 := lineAt ls i
  let line2 := lineAt ls j
  let group_type := _classify_group [line1, line2]
  let union_bbox := _union_bbox (bboxOrDefault line1.geometry) (bboxOrDefault line2.geometry)
  { group_type := group_type,
    lines := [line1, line2],
    geometry :=
      { quad_norm := line1.geometry.quad_norm,
        center_norm := ⟨(union_bbox.getD 0 0 + union_bbox.getD 2 0) / 2,
                        (union_bbox.getD 1 0 + union_bbox.getD 3 0) / 2⟩,
        angle_deg := (line1.geometry.angle_deg + line2.geometry.angle_deg) / 2,
        bbox_norm := union_bbox },
    localizable := group_type = .TITLE,
    confidence := 0.8 }

/-- The CreditGroup built for a remaining single line (confidence 0.6). -/
def singleGroup (ls : List CreditLine) (i : ℕ) : CreditGroup :=
  let line := lineAt ls i
  let group_type := _classify_group [line]
  { group_type := group_type,
    lines := [line],
    geometry := line.geometry,
    localizable := group_type = .TITLE,
    confidence := 0.6 }

/-- The index lists of the produced groups: accepted pairs first, then the
unused indices as singletons. -/
def groupIndexLists (ls : List CreditLine) : List (List ℕ) :=
  let pass := acceptPairs (over_under_pairs ls) []
  pass.1.map (fun p => [p.1, p.2]) ++
    (List.range ls.length).filterMap fun i =>
      if i ∈ pass.2 then none else some [i]

/-- group_credits_lines (image dimensions omitted: only forwarded to
geometry extraction, which ignores them). -/
def group_credits_lines (line_regions : List DetectedText) : List CreditGroup :=
  let ls := creditLinesOf line_regions
  let pass := acceptPairs (over_under_pairs ls) []
  pass.1.map (fun p => pairGroup ls p.1 p.2) ++
    (List.range ls.length).filterMap fun i =>
      if i ∈ pass.2 then none else some (singleGroup ls i)

/-! ## Vertex-order normalization (clients/ocr_client.py, _normalize_vertex_order) -/

/-- The `(y, x)` lexicographic sort key order used by
`sorted(vertices, key=lambda v: (v[1], v[0]))` on coordinate tuples. -/
def vertYX (a b : ℚ × ℚ) : Prop := a.2 < b.2 ∨ (a.2 = b.2 ∧ a.1 ≤ b.1)

instance : DecidableRel vertYX := fun a b =>
  inferInstanceAs (Decidable (a.2 < b.2 ∨ (a.2 = b.2 ∧ a.1 ≤ b.1)))

instance : IsTotal (ℚ × ℚ) vertYX := by
  constructor
  intro a b
  rcases lt_trichotomy a.2 b.2 with h | h | h
  · exact Or.inl (Or.inl h)
  · rcases le_total a.1 b.1 with h2 | h2
    · exact Or.inl (Or.inr ⟨h, h2⟩)
    · exact Or.inr (Or.inr ⟨h.symm, h2⟩)
  · exact Or.inr (Or.inl h)

instance : IsTrans (ℚ × ℚ) vertYX := by
  constructor
  intro a b c hab hbc
  rcases hab with h1 | ⟨h1, h1x⟩
  · rcases hbc with h2 | ⟨h2, _⟩
    · exact Or.inl (lt_trans h1 h2)
    · exact Or.inl (h2 ▸ h1)
  · rcases hbc with h2 | ⟨h2, h2x⟩
    · exact Or.inl (h1 ▸ h2)
    · exact Or.inr ⟨h1.trans h2, h1x.trans h2x⟩

instance : IsAntisymm (ℚ × ℚ) vertYX := by
  constructor
  intro a b hab hba
  rcases hab with h1 | ⟨h1, h1x⟩
  · rcases hba with h2 | ⟨h2, _⟩
    · exact absurd (lt_trans h1 h2) (lt_irrefl _)
    · exact absurd h1 (h2 ▸ lt_irrefl _)
  · rcases hba with h2 | ⟨h2, h2x⟩
    · exact absurd h2 (h1 ▸ lt_irrefl _)
    · exact Prod.ext (le_antisymm h1x h2x) h1

/-- The x-ascending order of `sorted(top, key=lambda v: v[0])`. -/
def vertXAsc (a b : ℚ × ℚ) : Prop := a.1 ≤ b.1

instance : DecidableRel vertXAsc := fun a b => inferInstanceAs (Decidable (a.1 ≤ b.1))

/-- The x-descending order of `sorted(bottom, key=lambda v: v[0], reverse=True)`. -/
def vertXDesc (a b : ℚ × ℚ) : Prop := b.1 ≤ a.1

instance : DecidableRel vertXDesc := fun a b => inferInstanceAs (Decidable (b.1 ≤ a.1))

/-- The body of _normalize_vertex_order on the sorted list for the 4-vertex
case: top two sorted by x ascending gives (TL, TR); bottom two sorted by x
descending gives (BR, BL).  The source guards for short sublists are
mirrored by the `getD` defaults, and are inert at length 4. -/
def normalizedFromSorted (s : List (ℚ × ℚ)) : List (ℚ × ℚ) :=
  let top_sorted := List.insertionSort vertXAsc (s.take 2)
  let tl := top_sorted.getD 0 (0, 0)
  let tr := if 1 < top_sorted.length then top_sorted.getD 1 (0, 0) else tl
  let bottom := s.drop 2
  let bottom_sorted := List.insertionSort vertXDesc bottom
  let br := bottom_sorted.getD 0 (bottom.getD 0 (0, 0))
  let bl :=
    if 1 < bottom_sorted.length then bottom_sorted.getD 1 (0, 0)
    else bottom.getD 0 (0, 0)
  [tl, tr, br, bl]

/-- _normalize_vertex_order: inputs of length other than 4 are returned
unchanged; otherwise sort by (y, x) and pick TL, TR, BR, BL. -/
def _normalize_vertex_order (vertices : List (ℚ × ℚ)) : List (ℚ × ℚ) :=
  if vertices.length ≠ 4 then vertices
  else normalizedFromSorted (List.insertionSort vertYX vertices)

/-! ## Exception-aware embedding of detect_credits_band

The pipeline is re-stated with every Python raise point made explicit as an
`Option` failure (outer `none` = a raised exception):
- pydantic validates `PointNorm` fields to [0,1] at construction, and the
  `confidence` fields of `CreditsBlock` / `CreditsBandDetection` to [0,1];
- reading a key from the empty stats dict returned by `_score_cluster` for
  degenerate clusters would raise `KeyError` (in the top-3 logging and at
  `best_stats["angle_mean"]`).
All other steps of this entry point are total (all divisions and min/max and
median calls are guarded in the source).  Values are shared with the total
embedding above wherever no raise point intervenes. -/

/-- Sequencing of fallible steps over a list (first failure aborts, like a
propagating Python exception). -/
def mapMO (f : α → Option β) : List α → Option (List β)
  | [] => some []
  | a :: as =>
    match f a, mapMO f as with
    | some b, some bs => some (b :: bs)
    | _, _ => none

/-- Pydantic `PointNorm(x=..., y=...)`: fails unless both are in [0,1]. -/
def mkPointE (x y : ℚ) : Option PointNorm :=
  if 0 ≤ x ∧ x ≤ 1 ∧ 0 ≤ y ∧ y ≤ 1 then some ⟨x, y⟩ else none

/-- Range check for an already-built model point, used when the source
re-constructs a `PointNorm` with the same coordinates. -/
def pointOk (p : PointNorm) : Bool := decide (0 ≤ p.x ∧ p.x ≤ 1 ∧ 0 ≤ p.y ∧ p.y ≤ 1)

/-- Exception-aware `boundingBox` fallback branch of
geometry_from_detected_text: the four corner points and the center point are
pydantic-validated. -/
def geometryFromBBoxE (r : DetectedText) : Option (Option RegionGeometry) :=
  if 4 ≤ r.boundingBox.length then
    let x1 := r.boundingBox.getD 0 0
    let y1 := r.boundingBox.getD 1 0
    let x2 := r.boundingBox.getD 2 0
    let y2 := r.boundingBox.getD 3 0
    match mkPointE x1 y1, mkPointE x2 y1, mkPointE x2 y2, mkPointE x1 y2,
        mkPointE ((x1 + x2) / 2) ((y1 + y2) / 2) with
    | some p1, some p2, some p3, some p4, some c =>
      some (some { quad_norm := ⟨[p1, p2, p3, p4]⟩,
                   center_norm := c,
                   angle_deg := 0,
                   bbox_norm := [x1, y1, x2, y2] })
    | _, _, _, _, _ => none
  else some none

/-- Exception-aware geometry_from_detected_text: in the `_geometry` branch
the source re-constructs each of the first four vertices and the center as
pydantic `PointNorm`s, any of which can fail validation. -/
def geometry_from_detected_textE (r : DetectedText) : Option (Option RegionGeometry) :=
  match r.geometryAttr with
  | some g =>
    if 4 ≤ g.quad_norm.length then
      let vs := g.quad_norm.take 4
      if vs.all pointOk ∧ pointOk g.center_norm then
        let quad : QuadNorm := ⟨vs⟩
        some (some { quad_norm := quad,
                     center_norm := g.center_norm,
                     angle_deg := g.angle_deg,
                     bbox_norm := bbox_from_quad quad })
      else none
    else geometryFromBBoxE r
  | none => geometryFromBBoxE r

/-- Exception-aware per-region Pass 1 outcome. -/
def overlayForE (r : DetectedText) : Option (Option CreditsOverlayElement) :=
  (geometry_from_detected_textE r).map fun
    | none => none
    | some g => overlayFromGeom r.text g

/-- Exception-aware _detect_credits_overlays. -/
def _detect_credits_overlaysE :
    List DetectedText → Option (List CreditsOverlayElement × List DetectedText)
  | [] => some ([], [])
  | r :: rs =>
    match overlayForE r, _detect_credits_overlaysE rs with
    | some o, some rest =>
      match o with
      | some e => some (e :: rest.1, rest.2)
      | none => some (rest.1, r :: rest.2)
    | _, _ => none

/-- Exception-aware _score_cluster. -/
def _score_clusterE (cluster : List DetectedText) (band_bbox_norm : List ℚ) :
    Option (ℚ × Option ClusterStats) :=
  if cluster = [] then some (0, none)
  else
    (mapMO geometry_from_detected_textE cluster).map fun gs =>
      scoreCore cluster gs.reduceOption band_bbox_norm

/-- Exception-aware _compute_oriented_bbox_for_cluster. -/
def _compute_oriented_bbox_for_clusterE (cluster : List DetectedText) :
    Option (QuadNorm × List ℚ) :=
  (mapMO geometry_from_detected_textE cluster).bind fun gs =>
    let pts := gs.reduceOption.flatMap (·.quad_norm.vertices)
    let all_x := pts.map (·.x)
    let all_y := pts.map (·.y)
    if all_x = [] ∨ all_y = [] then
      some (⟨[⟨0, 0⟩, ⟨1, 0⟩, ⟨1, 1⟩, ⟨0, 1⟩]⟩, [0, 0, 1, 1])
    else
      let x1 := pyMin all_x
      let y1 := pyMin all_y
      let x2 := pyMax all_x
      let y2 := pyMax all_y
      match mkPointE x1 y1, mkPointE x2 y1, mkPointE x2 y2, mkPointE x1 y2 with
      | some p1, some p2, some p3, some p4 =>
        some (⟨[p1, p2, p3, p4]⟩, [x1, y1, x2, y2])
      | _, _, _, _ => none

/-- Exception-aware _detect_credits_block. -/
def _detect_credits_blockE (residual_regions : List DetectedText)
    (band_bbox_norm : List ℚ) : Option (Option CreditsBlock) :=
  if residual_regions = [] then some none
  else
    let clusters := _cluster_regions residual_regions
    if clusters = [] then some none
    else
      (mapMO (fun c => (_score_clusterE c band_bbox_norm).map fun p => (p.1, p.2, c))
          clusters).bind fun scored =>
        let sorted := List.insertionSort scoreDesc scored
        -- the top-3 logging reads line_count, median_font_height, angle_std,
        -- lex_boost and bbox_norm out of each stats dict: KeyError on empty
        if ¬ (sorted.take 3).all (fun t => t.2.1.isSome) then none
        else
          match sorted with
          | [] => some none
          | (best_score, best_stats, best_cluster) :: _ =>
            if best_score < 2 then some none
            else
              match best_stats with
              | none => none  -- best_stats["angle_mean"] raises KeyError
              | some st =>
                (_compute_oriented_bbox_for_clusterE best_cluster).bind fun qb =>
                  let bbox_norm := qb.2
                  (mkPointE ((bbox_norm.getD 0 0 + bbox_norm.getD 2 0) / 2)
                      ((bbox_norm.getD 1 0 + bbox_norm.getD 3 0) / 2)).bind fun c =>
                    let confidence := min 1 (best_score / 5)
                    if 0 ≤ confidence ∧ confidence ≤ 1 then
                      some (some { geometry :=
                                     { quad_norm := qb.1,
                                       center_norm := c,
                                       angle_deg := st.angle_mean,
                                       bbox_norm := bbox_norm },
                                   dominant_angle_deg := st.angle_mean,
                                   source_line_region_ids := [],
                                   credit_groups := [],
                                   confidence := confidence })
                    else none

/-- Exception-aware detect_credits_band. -/
def detect_credits_bandE (line_regions : List DetectedText) :
    Option (Option CreditsBandDetection) :=
  let sel := _select_candidate_band line_regions
  let band_name := sel.1
  let band_bbox_norm := sel.2.1
  let band_regions := sel.2.2
  if band_regions = [] then some none
  else
    (_detect_credits_overlaysE band_regions).bind fun pass1 =>
      let overlays := pass1.1
      let residual_regions := pass1.2
      (if residual_regions ≠ [] then _detect_credits_blockE residual_regions band_bbox_norm
       else some none).bind fun credits_block =>
        let confidence := (credits_block.map (·.confidence)).getD 0
        if 0 ≤ confidence ∧ confidence ≤ 1 then
          some (some { band_name := band_name,
                       band_bbox_norm := band_bbox_norm,
                       overlays := overlays,
                       credits_block := credits_block,
                       confidence := confidence })
        else none

/-- Coordinate sanity of one region: its bbox entries and any attached
geometry coordinates are normalized to [0,1].  This is what the OCR client
guarantees for the regions it produces (it clamps all coordinates). -/
def regionInRange (r : DetectedText) : Prop :=
  (∀ q ∈ r.boundingBox, 0 ≤ q ∧ q ≤ 1) ∧
    ∀ g, r.geometryAttr = some g →
      (∀ v ∈ g.quad_norm, pointOk v = true) ∧ pointOk g.center_norm = true

/-! ## Spec-side restatement of the cluster score, and the best score

`specClusterScore` writes the score of a non-degenerate cluster as the
closed-form sum the specification describes, built from named per-component
definitions, to be compared against the accumulation in `_score_cluster`. -/

/-- The member geometries of a cluster, in member order. -/
def clusterGeoms (cluster : List DetectedText) : List RegionGeometry :=
  cluster.filterMap geometry_from_detected_text

/-- Median font height of a cluster (0.1 when no member has geometry). -/
def specMedianFontHeight (cluster : List DetectedText) : ℚ :=
  let font_heights := (clusterGeoms cluster).map font_height_from_geometry
  if font_heights ≠ [] then pyMedian font_heights else 0.1

/-- Sample variance of the member angles (0 with fewer than 2 angles);
the spec compares the standard deviation, its square root, against 8.0. -/
def specAngleVar (cluster : List DetectedText) : ℚ :=
  let angles := (clusterGeoms cluster).map (·.angle_deg)
  if 1 < angles.length then sampleVar angles else 0

/-- All member bbox x extremes (two entries per member with a usable bbox). -/
def specAllX (cluster : List DetectedText) : List ℚ :=
  (cluster.filter hasBBox4).flatMap fun r =>
    [r.boundingBox.getD 0 0, r.boundingBox.getD 2 0]

/-- All member bbox y extremes. -/
def specAllY (cluster : List DetectedText) : List ℚ :=
  (cluster.filter hasBBox4).flatMap fun r =>
    [r.boundingBox.getD 1 0, r.boundingBox.getD 3 0]

/-- Cluster density: line count over the cluster bbox height (the height is
floored at 0.001 before dividing, as in the source). -/
def specDensity (cluster : List DetectedText) : ℚ :=
  (cluster.length : ℚ) / max (pyMax (specAllY cluster) - pyMin (specAllY cluster)) 0.001

/-- Vertical center of the cluster bbox. -/
def specClusterCenterY (cluster : List DetectedText) : ℚ :=
  (pyMin (specAllY cluster) + pyMax (specAllY cluster)) / 2

/-- Vertical midpoint of the band bbox. -/
def specBandCenterY (band_bbox_norm : List ℚ) : ℚ :=
  (band_bbox_norm.getD 1 0 + band_bbox_norm.getD 3 0) / 2

/-- Fraction of member lines containing a lexical anchor phrase. -/
def specLexBoost (cluster : List DetectedText) : ℚ :=
  let text_lines := cluster.map (·.text)
  if text_lines ≠ [] then
    ((text_lines.filter anchorHit).length : ℚ) / (text_lines.length : ℚ)
  else 0

/-- The specification's closed-form cluster score: 1.0 for at least 8 lines,
1.0 for median font height at most 0.030, 1.0 for density above 10.0, 0.5
for a center below the band midpoint, 0.5 for an angle standard deviation of
at most 8.0 degrees (equivalently, variance at most 64), plus the lexical
boost. -/
def specClusterScore (cluster : List DetectedText) (band_bbox_norm : List ℚ) : ℚ :=
  (if CREDITS_LINE_COUNT_MIN ≤ cluster.length then (1 : ℚ) else 0) +
  (if specMedianFontHeight cluster ≤ CREDITS_FONT_HEIGHT_MAX then (1 : ℚ) else 0) +
  (if (10 : ℚ) < specDensity cluster then (1 : ℚ) else 0) +
  (if specBandCenterY band_bbox_norm < specClusterCenterY cluster then (1 / 2 : ℚ) else 0) +
  (if specAngleVar cluster ≤ CREDITS_ANGLE_STD_MAX ^ 2 then (1 / 2 : ℚ) else 0) +
  specLexBoost cluster

/-- The scores of all clusters of the residual regions, in cluster order. -/
def clusterScores (residual_regions : List DetectedText) (band_bbox_norm : List ℚ) :
    List ℚ :=
  (_cluster_regions residual_regions).map fun c => (_score_cluster c band_bbox_norm).1

/-- The highest cluster score (`none` when there are no clusters). -/
def bestClusterScore (residual_regions : List DetectedText) (band_bbox_norm : List ℚ) :
    Option ℚ :=
  match clusterScores residual_regions band_bbox_norm with
  | [] => none
  | s :: ss => some (ss.foldl max s)

/-! ## Concrete example inputs used by the witnesses -/

/-- A plain line region in the bottom band. -/
def exBottomRegion : DetectedText :=
  { text := "CAST", boundingBox := [0.1, 0.8, 0.9, 0.85], role := "other" }

/-- A line region in the top-lite band. -/
def exTopRegion : DetectedText :=
  { text := "NEW", boundingBox := [0.1, 0.05, 0.9, 0.1], role := "other" }

/-- A line region in neither band (vertical middle of the frame). -/
def exMidRegion : DetectedText :=
  { text := "MID", boundingBox := [0.1, 0.5, 0.9, 0.55], role := "other" }

/-- A social-handle region in the bottom band. -/
def exAtRegion : DetectedText :=
  { text := "@studiofilms", boundingBox := [0.1, 0.8, 0.5, 0.85], role := "other" }

/-- A rating-badge region in the bottom band (large enough not to be a LOGO,
tall enough not to be tiny-and-wide). -/
def exRatedRegion : DetectedText :=
  { text := "RATED R", boundingBox := [0.1, 0.8, 0.9, 0.9], role := "other" }

/-- A single tall region whose lone cluster scores 0.5, below the acceptance
threshold. -/
def exRejectRegion : DetectedText :=
  { text := "", boundingBox := [0, 0.75, 1, 0.95], role := "other" }

/-- A certification line ("A.C.E."). -/
def exACERegion : DetectedText :=
  { text := "A.C.E.", boundingBox := [0.1, 0.2, 0.3, 0.25], role := "other" }

/-- Region with an out-of-range bbox x coordinate inside the bottom band:
pydantic `PointNorm` validation raises on it. -/
def exOutOfRangeRegion : DetectedText :=
  { text := "", boundingBox := [5, 0.8, 6, 0.9], role := "other" }

/-- A region without a usable bounding box (fewer than 4 entries). -/
def exShortBBoxRegion : DetectedText :=
  { text := "dangling", boundingBox := [0.5, 0.8], role := "other" }

/-- Line 0 of the over/under scenario: smallest font, on top. -/
def exPairRegion0 : DetectedText :=
  { text := "directed by", boundingBox := [0, 0.100, 1, 0.110], role := "other" }

/-- Line 1: middle font, pairs with line 0 (gap 0.011) and with line 2. -/
def exPairRegion1 : DetectedText :=
  { text := "Jane Doe", boundingBox := [0, 0.106, 1, 0.126], role := "other" }

/-- Line 2: largest font, pairs with line 1 (gap 0.011) but not line 0. -/
def exPairRegion2 : DetectedText :=
  { text := "John Smith", boundingBox := [0, 0.112, 1, 0.142], role := "other" }

/-- The 3-line over/under scenario input. -/
def exPairRegions : List DetectedText := [exPairRegion0, exPairRegion1, exPairRegion2]

/-! ## Support lemmas -/

/-- A filter is non-empty iff some element satisfies the predicate. -/
theorem filter_ne_nil_iff_exists (l : List α) (p : α → Bool) :
    l.filter p ≠ [] ↔ ∃ a ∈ l, p a = true := by
  rw [Ne, List.filter_eq_nil_iff]
  push_neg
  simp

/-! ## Claim C3: band selection -/

/-- C3: if some region has a usable bbox whose top y1 lies in [0.70, 1.00],
band selection returns the bottom band with exactly those regions; else, if
some region has y1 in [0.00, 0.25], it returns the top-lite band with those
regions; and when neither band contains a region, band selection returns the
empty bottom band and detect_credits_band returns `none` as a normal value. -/
theorem claim_c3_band_selection (line_regions : List DetectedText) :
    ((∃ r ∈ line_regions, inBand BOTTOM_BAND_Y_MIN BOTTOM_BAND_Y_MAX r = true) →
      _select_candidate_band line_regions =
        ("BOTTOM_BAND", [0, BOTTOM_BAND_Y_MIN, 1, BOTTOM_BAND_Y_MAX],
          line_regions.filter (inBand BOTTOM_BAND_Y_MIN BOTTOM_BAND_Y_MAX))) ∧
    ((¬ ∃ r ∈ line_regions, inBand BOTTOM_BAND_Y_MIN BOTTOM_BAND_Y_MAX r = true) →
      (∃ r ∈ line_regions, inBand TOP_LITE_BAND_Y_MIN TOP_LITE_BAND_Y_MAX r = true) →
      _select_candidate_band line_regions =
        ("TOP_LITE_BAND", [0, TOP_LITE_BAND_Y_MIN, 1, TOP_LITE_BAND_Y_MAX],
          line_regions.filter (inBand TOP_LITE_BAND_Y_MIN TOP_LITE_BAND_Y_MAX))) ∧
    ((¬ ∃ r ∈ line_regions, inBand BOTTOM_BAND_Y_MIN BOTTOM_BAND_Y_MAX r = true) →
      (¬ ∃ r ∈ line_regions, inBand TOP_LITE_BAND_Y_MIN TOP_LITE_BAND_Y_MAX r = true) →
      _select_candidate_band line_regions =
        ("BOTTOM_BAND", [0, BOTTOM_BAND_Y_MIN, 1, BOTTOM_BAND_Y_MAX], []) ∧
      detect_credits_band line_regions = none) := by
  refine ⟨fun hb => ?_, fun hnb ht => ?_, fun hnb hnt => ?_⟩
  · have h : line_regions.filter (inBand BOTTOM_BAND_Y_MIN BOTTOM_BAND_Y_MAX) ≠ [] :=
      (filter_ne_nil_iff_exists _ _).2 hb
    simp only [_select_candidate_band, if_pos h]
  · have h : line_regions.filter (inBand BOTTOM_BAND_Y_MIN BOTTOM_BAND_Y_MAX) = [] := by
      by_contra hc
      exact hnb ((filter_ne_nil_iff_exists _ _).1 hc)
    have h2 : line_regions.filter (inBand TOP_LITE_BAND_Y_MIN TOP_LITE_BAND_Y_MAX) ≠ [] :=
      (filter_ne_nil_iff_exists _ _).2 ht
    simp only [_select_candidate_band, h, if_pos h2]
    simp
  · have h : line_regions.filter (inBand BOTTOM_BAND_Y_MIN BOTTOM_BAND_Y_MAX) = [] := by
      by_contra hc
      exact hnb ((filter_ne_nil_iff_exists _ _).1 hc)
    have h2 : line_regions.filter (inBand TOP_LITE_BAND_Y_MIN TOP_LITE_BAND_Y_MAX) = [] := by
      by_contra hc
      exact hnt ((filter_ne_nil_iff_exists _ _).1 hc)
    have hsel : _select_candidate_band line_regions =
        ("BOTTOM_BAND", [0, BOTTOM_BAND_Y_MIN, 1, BOTTOM_BAND_Y_MAX], []) := by
      simp only [_select_candidate_band, h, h2]
      simp
    refine ⟨hsel, ?_⟩
    simp only [detect_credits_band, hsel]
    simp

/-- Witness for C3 at a region sitting at y = 0.5: neither band matches and
no detection is produced. -/
theorem claim_c3_witness :
    _select_candidate_band [exMidRegion] =
      ("BOTTOM_BAND", [0, BOTTOM_BAND_Y_MIN, 1, BOTTOM_BAND_Y_MAX], []) ∧
    detect_credits_band [exMidRegion] = none :=
  (claim_c3_band_selection [exMidRegion]).2.2
    (by
      simp only [List.mem_singleton, exMidRegion, inBand, BOTTOM_BAND_Y_MIN,
        BOTTOM_BAND_Y_MAX]
      norm_num)
    (by
      simp only [List.mem_singleton, exMidRegion, inBand, TOP_LITE_BAND_Y_MIN,
        TOP_LITE_BAND_Y_MAX]
      norm_num)

/-! ## Claim C7: vertex-order normalization idempotence -/

/-- Stable (y, x) sorts of permuted vertex lists agree: ties in the full
(y, x) key force equal vertices, so the sorted sequence is determined by the
multiset of vertices. -/
theorem sortYX_eq_of_perm {l₁ l₂ : List (ℚ × ℚ)} (h : List.Perm l₁ l₂) :
    List.insertionSort vertYX l₁ = List.insertionSort vertYX l₂ :=
  List.eq_of_perm_of_sorted
    ((List.perm_insertionSort vertYX l₁).trans
      (h.trans (List.perm_insertionSort vertYX l₂).symm))
    (List.sorted_insertionSort vertYX l₁) (List.sorted_insertionSort vertYX l₂)

/-- The TL/TR/BR/BL reordering of a 4-element sorted list is a permutation
of it. -/
theorem normalizedFromSorted_perm (s : List (ℚ × ℚ)) (h : s.length = 4) :
    List.Perm (normalizedFromSorted s) s := by
  match s, h with
  | [a, b, c, d], _ =>
    by_cases hab : vertXAsc a b <;> by_cases hcd : vertXDesc c d
    · have he : normalizedFromSorted [a, b, c, d] = [a, b, c, d] := by
        simp [normalizedFromSorted, List.insertionSort, List.orderedInsert, hab, hcd]
      rw [he]
    · have he : normalizedFromSorted [a, b, c, d] = [a, b, d, c] := by
        simp [normalizedFromSorted, List.insertionSort, List.orderedInsert, hab, hcd]
      rw [he]
      exact List.Perm.append (List.Perm.refl [a, b]) (List.Perm.swap c d [])
    · have he : normalizedFromSorted [a, b, c, d] = [b, a, c, d] := by
        simp [normalizedFromSorted, List.insertionSort, List.orderedInsert, hab, hcd]
      rw [he]
      exact List.Perm.append (List.Perm.swap a b []) (List.Perm.refl [c, d])
    · have he : normalizedFromSorted [a, b, c, d] = [b, a, d, c] := by
        simp [normalizedFromSorted, List.insertionSort, List.orderedInsert, hab, hcd]
      rw [he]
      exact List.Perm.append (List.Perm.swap a b []) (List.Perm.swap c d [])

/-- C7: _normalize_vertex_order is idempotent on every input (in particular
on convex, non-degenerate quadrilaterals), and returns inputs with a vertex
count other than 4 unchanged. -/
theorem claim_c7_normalize_idempotent (vertices : List (ℚ × ℚ)) :
    _normalize_vertex_order (_normalize_vertex_order vertices) =
      _normalize_vertex_order vertices ∧
    (vertices.length ≠ 4 → _normalize_vertex_order vertices = vertices) := by
  by_cases hlen : vertices.length = 4
  · have hnot : ¬ vertices.length ≠ 4 := by simp [hlen]
    have h1 : _normalize_vertex_order vertices =
        normalizedFromSorted (List.insertionSort vertYX vertices) := by
      simp only [_normalize_vertex_order, if_neg hnot]
    have hslen : (List.insertionSort vertYX vertices).length = 4 :=
      ((List.perm_insertionSort vertYX vertices).length_eq).trans hlen
    have hperm : List.Perm (_normalize_vertex_order vertices) vertices := by
      rw [h1]
      exact (normalizedFromSorted_perm _ hslen).trans (List.perm_insertionSort vertYX vertices)
    have hnlen : (_normalize_vertex_order vertices).length = 4 :=
      hperm.length_eq.trans hlen
    constructor
    · set w := _normalize_vertex_order vertices with hw
      have hwnot : ¬ w.length ≠ 4 := by simp [hnlen]
      have h2 : _normalize_vertex_order w =
          normalizedFromSorted (List.insertionSort vertYX w) := by
        rw [_normalize_vertex_order, if_neg hwnot]
      rw [h2, sortYX_eq_of_perm hperm, ← h1]
    · intro hne
      exact absurd hlen hne
  · have h1 : _normalize_vertex_order vertices = vertices := by
      simp only [_normalize_vertex_order, if_pos hlen]
    exact ⟨by rw [h1, h1], fun _ => h1⟩

/-- Witness for C7: a concrete convex quadrilateral given in scrambled order
normalizes to TL, TR, BR, BL, and a second application is inert; a 5-point
input passes through unchanged. -/
theorem claim_c7_witness :
    _normalize_vertex_order (_normalize_vertex_order [(1, 1), (0, 0), (1, 0), (0, 1)]) =
      _normalize_vertex_order [(1, 1), (0, 0), (1, 0), (0, 1)] ∧
    _normalize_vertex_order [(0, 0), (1, 0), (1, 1), (0, 1), (2, 2)] =
      [(0, 0), (1, 0), (1, 1), (0, 1), (2, 2)] :=
  ⟨(claim_c7_normalize_idempotent [(1, 1), (0, 0), (1, 0), (0, 1)]).1,
   (claim_c7_normalize_idempotent [(0, 0), (1, 0), (1, 1), (0, 1), (2, 2)]).2
     (by norm_num)⟩

/-! ## Claim C2: the Pass 1 partition -/

/-- The Pass 1 loop is an order-preserving partition: overlays are the
classified regions, residuals are the unclassified ones. -/
theorem pass1_eq (rs : List DetectedText) :
    _detect_credits_overlays rs =
      (rs.filterMap overlayFor, rs.filter fun r => (overlayFor r).isNone) := by
  induction rs with
  | nil => rfl
  | cons r rs ih =>
    simp only [_detect_credits_overlays, ih]
    cases h : overlayFor r <;> simp [h, List.filterMap_cons, List.filter_cons]

/-- A filterMap and the filter of its failures split the length. -/
theorem length_filterMap_add_length_filter (f : α → Option β) (l : List α) :
    (l.filterMap f).length + (l.filter fun a => (f a).isNone).length = l.length := by
  induction l with
  | nil => rfl
  | cons a l ih =>
    cases h : f a <;>
      simp [List.filterMap_cons, List.filter_cons, h, ← ih, Nat.add_assoc,
        Nat.add_comm 1]

/-- Reduction of geometry extraction in the usable-side-data case. -/
theorem geometry_attr_some (r : DetectedText) (ga : GeomAttr)
    (hga : r.geometryAttr = some ga) (hq : 4 ≤ ga.quad_norm.length) :
    geometry_from_detected_text r =
      some { quad_norm := ⟨ga.quad_norm.take 4⟩,
             center_norm := ga.center_norm,
             angle_deg := ga.angle_deg,
             bbox_norm := bbox_from_quad ⟨ga.quad_norm.take 4⟩ } := by
  simp [geometry_from_detected_text, hga, hq]

/-- Reduction of geometry extraction when the side data quad is short. -/
theorem geometry_attr_short (r : DetectedText) (ga : GeomAttr)
    (hga : r.geometryAttr = some ga) (hq : ¬ 4 ≤ ga.quad_norm.length) :
    geometry_from_detected_text r = geometryFromBBox r := by
  simp [geometry_from_detected_text, hga, hq]

/-- Reduction of geometry extraction without side data. -/
theorem geometry_attr_none (r : DetectedText) (hga : r.geometryAttr = none) :
    geometry_from_detected_text r = geometryFromBBox r := by
  simp [geometry_from_detected_text, hga]

/-- Every region with a usable bounding box yields a geometry. -/
theorem geometry_some_of_bbox4 (r : DetectedText) (h : 4 ≤ r.boundingBox.length) :
    ∃ g, geometry_from_detected_text r = some g := by
  have hb : ∃ g, geometryFromBBox r = some g := by
    rw [geometryFromBBox, if_pos h]
    exact ⟨_, rfl⟩
  rcases hga : r.geometryAttr with _ | ga
  · rw [geometry_attr_none r hga]
    exact hb
  · by_cases hq : 4 ≤ ga.quad_norm.length
    · exact ⟨_, geometry_attr_some r ga hga hq⟩
    · rw [geometry_attr_short r ga hga hq]
      exact hb

/-- C2: Pass 1 partitions its input totally — overlays plus residuals exhaust
the band regions without loss or duplication; a band region (usable bbox)
whose text contains "@" always becomes a SOCIAL_HANDLE overlay and is never
residual; a region without extractable geometry passes through as residual. -/
theorem claim_c2_pass1_partition (band_regions : List DetectedText) :
    _detect_credits_overlays band_regions =
      (band_regions.filterMap overlayFor,
       band_regions.filter fun r => (overlayFor r).isNone) ∧
    (_detect_credits_overlays band_regions).1.length +
        (_detect_credits_overlays band_regions).2.length = band_regions.length ∧
    (∀ r ∈ band_regions, 4 ≤ r.boundingBox.length → strContains r.text "@" = true →
      (∃ e, overlayFor r = some e ∧
          e.element_type = CreditsOverlayType.SOCIAL_HANDLE) ∧
        r ∉ (_detect_credits_overlays band_regions).2) ∧
    (∀ r ∈ band_regions, geometry_from_detected_text r = none →
      r ∈ (_detect_credits_overlays band_regions).2) := by
  refine ⟨pass1_eq band_regions, ?_, ?_, ?_⟩
  · rw [pass1_eq]
    exact length_filterMap_add_length_filter overlayFor band_regions
  · intro r hr hb hat
    obtain ⟨g, hg⟩ := geometry_some_of_bbox4 r hb
    have hov : ∃ e, overlayFor r = some e ∧
        e.element_type = CreditsOverlayType.SOCIAL_HANDLE := by
      refine ⟨{ element_type := CreditsOverlayType.SOCIAL_HANDLE,
                text := if r.text ≠ "" then some r.text else none,
                geometry := g,
                locked := true }, ?_, rfl⟩
      simp [overlayFor, hg, overlayFromGeom, textRule, hat]
    refine ⟨hov, ?_⟩
    rw [pass1_eq]
    obtain ⟨e, he, _⟩ := hov
    intro hmem
    have := (List.mem_filter.1 hmem).2
    rw [he] at this
    simp at this
  · intro r hr hgnone
    rw [pass1_eq]
    refine List.mem_filter.2 ⟨hr, ?_⟩
    simp [overlayFor, hgnone]

/-- Witness for C2: a social-handle region in the band becomes the sole
SOCIAL_HANDLE overlay and the residual list is empty. -/
theorem claim_c2_witness :
    (∃ e, overlayFor exAtRegion = some e ∧
        e.element_type = CreditsOverlayType.SOCIAL_HANDLE) ∧
    exAtRegion ∉ (_detect_credits_overlays [exAtRegion]).2 :=
  (claim_c2_pass1_partition [exAtRegion]).2.2.1 exAtRegion (by simp)
    (by simp [exAtRegion]) (by decide)

/-! ## Claim C4: the rating-badge rule -/

/-- The bbox stored in an extracted geometry always has exactly 4 entries. -/
theorem geometry_bbox_length (r : DetectedText) (g : RegionGeometry)
    (hg : geometry_from_detected_text r = some g) : g.bbox_norm.length = 4 := by
  have hbb : ∀ (h : geometryFromBBox r = some g), g.bbox_norm.length = 4 := by
    intro h
    rw [geometryFromBBox] at h
    split at h
    · cases h
      rfl
    · cases h
  rcases hga : r.geometryAttr with _ | ga
  · rw [geometry_attr_none r hga] at hg
    exact hbb hg
  · by_cases hq : 4 ≤ ga.quad_norm.length
    · rw [geometry_attr_some r ga hga hq] at hg
      cases hg
      rfl
    · rw [geometry_attr_short r ga hga hq] at hg
      exact hbb hg

/-- C4: for a band region with geometry matched by no earlier Pass 1 rule
(no "@", no URL token, area at least 0.0020, and not both tiny height and
wide aspect), the region becomes a RATING_BADGE overlay iff its uppercased
text contains one of RATED, PG, G, R, NC-17, MPAA; otherwise it stays
residual. -/
theorem claim_c4_rating_badge (r : DetectedText) (g : RegionGeometry)
    (hg : geometry_from_detected_text r = some g)
    (hat : strContains r.text "@" = false)
    (hurl : URL_TOKENS.any (fun t => strContains (pyUpper r.text) t) = false)
    (harea : OVERLAY_AREA_SMALL ≤ area_from_bbox g.bbox_norm)
    (hnarrow : ¬ (height_from_bbox g.bbox_norm < OVERLAY_HEIGHT_TINY ∧
      OVERLAY_ASPECT_WIDE < aspect_ratio_from_bbox g.bbox_norm)) :
    ((∃ e, overlayFor r = some e ∧
        e.element_type = CreditsOverlayType.RATING_BADGE) ↔
      RATING_TOKENS.any (fun t => strContains (pyUpper r.text) t) = true) ∧
    (RATING_TOKENS.any (fun t => strContains (pyUpper r.text) t) = false →
      overlayFor r = none ∧
        ∀ rs, r ∈ rs → r ∈ (_detect_credits_overlays rs).2) := by
  have hbne : g.bbox_norm ≠ [] := by
    intro hnil
    have := geometry_bbox_length r g hg
    rw [hnil] at this
    cases this
  have hgeom : geomRule r.text g =
      (if RATING_TOKENS.any (fun t => strContains (pyUpper r.text) t) then
        some CreditsOverlayType.RATING_BADGE
      else none) := by
    rw [geomRule]
    rw [if_neg (not_lt.2 harea), if_neg hnarrow]
  have hov : overlayFor r =
      (if RATING_TOKENS.any (fun t => strContains (pyUpper r.text) t) then
        some { element_type := CreditsOverlayType.RATING_BADGE,
               text := if r.text ≠ "" then some r.text else none,
               geometry := g,
               locked := true }
      else none) := by
    rw [overlayFor, hg, Option.some_bind, overlayFromGeom, textRule, hat]
    simp only [Bool.false_eq_true, if_false, hurl, if_neg hbne.elim]
    rw [if_pos hbne, hgeom]
    cases hrt : RATING_TOKENS.any (fun t => strContains (pyUpper r.text) t) <;> simp [hrt]
  constructor
  · constructor
    · rintro ⟨e, he, het⟩
      by_contra hno
      rw [Bool.not_eq_true] at hno
      rw [hov, hno] at he
      simp at he
    · intro hyes
      rw [hov, if_pos hyes]
      exact ⟨_, rfl, rfl⟩
  · intro hno
    have hnone : overlayFor r = none := by
      rw [hov, hno]
      simp
    refine ⟨hnone, fun rs hmem => ?_⟩
    rw [pass1_eq]
    exact List.mem_filter.2 ⟨hmem, by simp [hnone]⟩

/-- Witness for C4: a "RATED R" region of normalized area 0.08 and height
0.1 becomes a RATING_BADGE overlay. -/
theorem claim_c4_witness :
    ∃ e, overlayFor exRatedRegion = some e ∧
      e.element_type = CreditsOverlayType.RATING_BADGE := by
  have hg : geometry_from_detected_text exRatedRegion =
      some { quad_norm := ⟨[⟨0.1, 0.8⟩, ⟨0.9, 0.8⟩, ⟨0.9, 0.9⟩, ⟨0.1, 0.9⟩]⟩,
             center_norm := ⟨0.5, 0.85⟩,
             angle_deg := 0,
             bbox_norm := [0.1, 0.8, 0.9, 0.9] } := by
    rw [geometry_attr_none exRatedRegion rfl, geometryFromBBox]
    norm_num [exRatedRegion]
  exact ((claim_c4_rating_badge exRatedRegion _ hg (by decide) (by decide)
    (by norm_num [area_from_bbox, OVERLAY_AREA_SMALL])
    (by norm_num [height_from_bbox, OVERLAY_HEIGHT_TINY])).1).2 (by decide)

/-! ## Claim C10: clustering covers exactly the regions with usable bboxes -/

/-- A successful attach inserts the region into the flattened members. -/
theorem tryAttach_flatten (r : DetectedText) :
    ∀ (cs cs2 : List (List DetectedText)), tryAttach r cs = some cs2 →
      List.Perm cs2.flatten (cs.flatten ++ [r])
  | [], _, h => by cases h
  | c :: cs, cs2, h => by
    rw [tryAttach] at h
    by_cases hm : clusterMatch r c
    · rw [if_pos hm] at h
      cases h
      simp only [List.flatten_cons, List.append_assoc]
      exact List.Perm.append_left c (List.perm_append_comm)
    · rw [if_neg hm] at h
      cases hrec : tryAttach r cs with
      | none => rw [hrec] at h; cases h
      | some cs' =>
        rw [hrec] at h
        cases h
        have ih := tryAttach_flatten r cs cs' hrec
        simp only [List.flatten_cons]
        refine (List.Perm.append_left c ih).trans ?_
        rw [← List.append_assoc]

/-- One loop iteration adds the region to the members iff it has a usable
bbox. -/
theorem clusterStep_flatten (cs : List (List DetectedText)) (r : DetectedText) :
    List.Perm (clusterStep cs r).flatten
      (cs.flatten ++ if hasBBox4 r then [r] else []) := by
  rw [clusterStep]
  by_cases hb : hasBBox4 r
  · rw [if_pos hb, if_pos hb]
    cases hta : tryAttach r cs with
    | none => simp [hta]
    | some cs2 => simpa [hta] using tryAttach_flatten r cs cs2 hta
  · rw [if_neg hb, if_neg hb]
    simp

/-- The fold over the sorted regions accumulates exactly the usable ones. -/
theorem foldl_clusterStep_flatten :
    ∀ (rs : List DetectedText) (cs : List (List DetectedText)),
      List.Perm (rs.foldl clusterStep cs).flatten (cs.flatten ++ rs.filter hasBBox4)
  | [], cs => by simp
  | r :: rs, cs => by
    simp only [List.foldl_cons]
    refine (foldl_clusterStep_flatten rs (clusterStep cs r)).trans ?_
    have h2 := (clusterStep_flatten cs r).append_right (rs.filter hasBBox4)
    refine h2.trans ?_
    by_cases hb : hasBBox4 r <;> simp [List.filter_cons, hb]

/-- A successful attach keeps all clusters non-empty. -/
theorem tryAttach_ne_nil (r : DetectedText) :
    ∀ (cs cs2 : List (List DetectedText)), tryAttach r cs = some cs2 →
      (∀ c ∈ cs, c ≠ []) → ∀ c ∈ cs2, c ≠ []
  | [], _, h, _ => by cases h
  | c :: cs, cs2, h, hne => by
    rw [tryAttach] at h
    by_cases hm : clusterMatch r c
    · rw [if_pos hm] at h
      cases h
      intro c' hc'
      rcases List.mem_cons.1 hc' with hc' | hc'
      · subst hc'
        simp
      · exact hne c' (List.mem_cons_of_mem c hc')
    · rw [if_neg hm] at h
      cases hrec : tryAttach r cs with
      | none => rw [hrec] at h; cases h
      | some cs' =>
        rw [hrec] at h
        cases h
        intro c' hc'
        rcases List.mem_cons.1 hc' with hc' | hc'
        · subst hc'
          exact hne c' (List.mem_cons_self _ _)
        · exact tryAttach_ne_nil r cs cs' hrec
            (fun x hx => hne x (List.mem_cons_of_mem c hx)) c' hc'

/-- One loop iteration keeps all clusters non-empty. -/
theorem clusterStep_ne_nil (cs : List (List DetectedText)) (r : DetectedText)
    (hne : ∀ c ∈ cs, c ≠ []) : ∀ c ∈ clusterStep cs r, c ≠ [] := by
  rw [clusterStep]
  by_cases hb : hasBBox4 r
  · rw [if_pos hb]
    cases hta : tryAttach r cs with
    | none =>
      simp only [hta, Option.getD_none]
      intro c hc
      rcases List.mem_append.1 hc with hc | hc
      · exact hne c hc
      · rcases List.mem_singleton.1 hc with rfl
        simp
    | some cs2 =>
      simp only [hta, Option.getD_some]
      exact tryAttach_ne_nil r cs cs2 hta hne
  · rw [if_neg hb]
    exact hne

/-- The fold keeps all clusters non-empty. -/
theorem foldl_clusterStep_ne_nil :
    ∀ (rs : List DetectedText) (cs : List (List DetectedText)),
      (∀ c ∈ cs, c ≠ []) → ∀ c ∈ rs.foldl clusterStep cs, c ≠ []
  | [], _, hne => hne
  | r :: rs, cs, hne => by
    simp only [List.foldl_cons]
    exact foldl_clusterStep_ne_nil rs (clusterStep cs r) (clusterStep_ne_nil cs r hne)

/-- The clusters flatten to the usable input regions, up to permutation. -/
theorem clusters_flatten_perm (regions : List DetectedText) :
    List.Perm (_cluster_regions regions).flatten (regions.filter hasBBox4) := by
  by_cases hr : regions = []
  · subst hr
    simp [_cluster_regions]
  · rw [_cluster_regions, if_neg hr]
    refine (foldl_clusterStep_flatten (List.insertionSort regionLe regions) []).trans ?_
    simpa using (List.perm_insertionSort regionLe regions).filter hasBBox4

/-- Every produced cluster is non-empty. -/
theorem clusters_ne_nil (regions : List DetectedText) :
    ∀ c ∈ _cluster_regions regions, c ≠ [] := by
  by_cases hr : regions = []
  · subst hr
    simp [_cluster_regions]
  · rw [_cluster_regions, if_neg hr]
    exact foldl_clusterStep_ne_nil _ [] (by simp)

/-- Members of a cluster produced by _cluster_regions come from the input
and carry a usable bbox (shared by the scoring and safety proofs). -/
theorem cluster_member_of_mem (regions : List DetectedText)
    (c : List DetectedText) (hc : c ∈ _cluster_regions regions) :
    ∀ r ∈ c, r ∈ regions ∧ hasBBox4 r = true := by
  intro r hrc
  have hmem : r ∈ (_cluster_regions regions).flatten := List.mem_flatten.2 ⟨c, hc, hrc⟩
  have := (clusters_flatten_perm regions).mem_iff.1 hmem
  exact ⟨List.mem_of_mem_filter this, (List.mem_filter.1 this).2⟩

/-- C10: the clusters of _cluster_regions cover, with multiplicity, exactly
the residual regions that carry a usable bounding box; every cluster is
non-empty; and a region without a usable bounding box is silently dropped —
it appears in no cluster. -/
theorem claim_c10_cluster_partition (regions : List DetectedText) :
    List.Perm (_cluster_regions regions).flatten (regions.filter hasBBox4) ∧
    (∀ c ∈ _cluster_regions regions, c ≠ []) ∧
    ∀ r ∈ regions, hasBBox4 r = false →
      ∀ c ∈ _cluster_regions regions, r ∉ c := by
  refine ⟨clusters_flatten_perm regions, clusters_ne_nil regions,
    fun r hr hbad c hc hrc => ?_⟩
  have := (cluster_member_of_mem regions c hc r hrc).2
  rw [hbad] at this
  cases this

/-- Witness for C10 on a two-region input whose second region has a short
bbox: the single cluster holds exactly the first region, and the short-bbox
region lands in no cluster. -/
theorem claim_c10_witness :
    List.Perm (_cluster_regions [exBottomRegion, exShortBBoxRegion]).flatten
      ([exBottomRegion, exShortBBoxRegion].filter hasBBox4) ∧
    exShortBBoxRegion ∉ (_cluster_regions [exBottomRegion, exShortBBoxRegion]).flatten := by
  have h := claim_c10_cluster_partition [exBottomRegion, exShortBBoxRegion]
  refine ⟨h.1, fun hmem => ?_⟩
  obtain ⟨c, hc, hrc⟩ := List.mem_flatten.1 hmem
  exact h.2.2 exShortBBoxRegion (by simp) (by decide) c hc hrc

/-! ## Claim C1: cluster scoring and selection -/

/-- The score of a non-degenerate cluster is the specification's closed-form
sum, and the lexical boost is a fraction in [0, 1]. -/
theorem score_cluster_eq_spec (cluster : List DetectedText) (band_bbox_norm : List ℚ)
    (hne : cluster ≠ []) (hbb : ∀ r ∈ cluster, hasBBox4 r = true) :
    (_score_cluster cluster band_bbox_norm).1 = specClusterScore cluster band_bbox_norm ∧
    0 ≤ specLexBoost cluster ∧ specLexBoost cluster ≤ 1 := by
  have hfilter : cluster.filter hasBBox4 = cluster := List.filter_eq_self.2 hbb
  have hx : (cluster.filter hasBBox4).flatMap
      (fun r => [r.boundingBox.getD 0 0, r.boundingBox.getD 2 0]) ≠ [] := by
    rw [hfilter]
    rcases cluster with _ | ⟨r, rs⟩
    · exact absurd rfl hne
    · simp [List.flatMap_cons]
  have hy : (cluster.filter hasBBox4).flatMap
      (fun r => [r.boundingBox.getD 1 0, r.boundingBox.getD 3 0]) ≠ [] := by
    rw [hfilter]
    rcases cluster with _ | ⟨r, rs⟩
    · exact absurd rfl hne
    · simp [List.flatMap_cons]
  refine ⟨?_, ?_, ?_⟩
  · rw [_score_cluster, if_neg hne, scoreCore]
    simp only [if_neg (by push_neg; exact ⟨hx, hy⟩ :
      ¬ ((cluster.filter hasBBox4).flatMap
          (fun r => [r.boundingBox.getD 0 0, r.boundingBox.getD 2 0]) = [] ∨
        (cluster.filter hasBBox4).flatMap
          (fun r => [r.boundingBox.getD 1 0, r.boundingBox.getD 3 0]) = []))]
    simp only [specClusterScore, specMedianFontHeight, specAngleVar, specDensity,
      specClusterCenterY, specBandCenterY, specLexBoost, specAllX, specAllY,
      clusterGeoms]
  · rw [specLexBoost]
    split
    · positivity
    · exact le_refl 0
  · rw [specLexBoost]
    split
    · rename_i hmt
      rw [div_le_one (by exact_mod_cast List.length_pos.2 hmt)]
      exact_mod_cast List.length_filter_le _ _
    · exact zero_le_one

/-- The left fold with max lands in the folded list. -/
theorem foldl_max_mem (s : ℚ) (ss : List ℚ) : ss.foldl max s ∈ s :: ss := by
  induction ss generalizing s with
  | nil => simp
  | cons a ss ih =>
    simp only [List.foldl_cons]
    rcases List.mem_cons.1 (ih (max s a)) with h | h
    · rcases max_choice s a with hm | hm
      · exact List.mem_cons.2 (Or.inl (h.trans hm))
      · exact List.mem_cons.2 (Or.inr (List.mem_cons.2 (Or.inl (h.trans hm))))
    · exact List.mem_cons.2 (Or.inr (List.mem_cons.2 (Or.inr h)))

/-- The left fold with max bounds every folded element. -/
theorem le_foldl_max (s : ℚ) (ss : List ℚ) : ∀ x ∈ s :: ss, x ≤ ss.foldl max s := by
  induction ss generalizing s with
  | nil =>
    intro x hx
    rcases List.mem_singleton.1 hx with rfl
    exact le_refl x
  | cons a ss ih =>
    intro x hx
    simp only [List.foldl_cons]
    rcases List.mem_cons.1 hx with rfl | hx
    · exact le_trans (le_max_left x a) (ih (max x a) _ (List.mem_cons_self _ _))
    · rcases List.mem_cons.1 hx with rfl | hx
      · exact le_trans (le_max_right s x) (ih (max s x) _ (List.mem_cons_self _ _))
      · exact ih (max s a) x (List.mem_cons_of_mem _ hx)

/-- The head of the descending sort belongs to the list and dominates all
scores. -/
theorem insertionSort_head_max (l : List (ℚ × Option ClusterStats × List DetectedText))
    (h : ℚ × Option ClusterStats × List DetectedText)
    (t : List (ℚ × Option ClusterStats × List DetectedText))
    (hs : List.insertionSort scoreDesc l = h :: t) :
    h ∈ l ∧ ∀ x ∈ l, x.1 ≤ h.1 := by
  have hperm := List.perm_insertionSort scoreDesc l
  rw [hs] at hperm
  refine ⟨hperm.mem_iff.1 (List.mem_cons_self h t), fun x hx => ?_⟩
  rcases List.mem_cons.1 (hperm.mem_iff.2 hx) with rfl | hx'
  · exact le_refl _
  · have hsorted := List.sorted_insertionSort scoreDesc l
    rw [hs] at hsorted
    exact List.rel_of_sorted_cons hsorted x hx'

/-- C1: every cluster of the residual regions is scored by the closed-form
sum of the six components (with the lexical boost a fraction in [0, 1]), and
the highest-scoring cluster is accepted iff its score reaches 2.0, the
resulting block carrying confidence min(1, score / 5); otherwise the block
is `none`. -/
theorem claim_c1_scoring_and_selection (residual_regions : List DetectedText)
    (band_bbox_norm : List ℚ) :
    (∀ cl ∈ _cluster_regions residual_regions,
      (_score_cluster cl band_bbox_norm).1 = specClusterScore cl band_bbox_norm ∧
      0 ≤ specLexBoost cl ∧ specLexBoost cl ≤ 1) ∧
    (∀ s, bestClusterScore residual_regions band_bbox_norm = some s →
      (2 ≤ s → ∃ blk,
        _detect_credits_block residual_regions band_bbox_norm = some blk ∧
        blk.confidence = min 1 (s / 5)) ∧
      (s < 2 → _detect_credits_block residual_regions band_bbox_norm = none)) ∧
    (bestClusterScore residual_regions band_bbox_norm = none →
      _detect_credits_block residual_regions band_bbox_norm = none) := by
  refine ⟨fun cl hcl => ?_, ?_⟩
  · exact score_cluster_eq_spec cl band_bbox_norm (clusters_ne_nil _ cl hcl)
      (fun r hr => (cluster_member_of_mem _ cl hcl r hr).2)
  by_cases hres : residual_regions = []
  · subst hres
    have hcl : _cluster_regions ([] : List DetectedText) = [] := by
      simp [_cluster_regions]
    have hbest : bestClusterScore [] band_bbox_norm = none := by
      rw [bestClusterScore]
      simp [clusterScores, hcl]
    refine ⟨fun s hs => ?_, fun _ => ?_⟩
    · rw [hbest] at hs
      cases hs
    · rw [_detect_credits_block]
      simp
  · cases hcl : _cluster_regions residual_regions with
    | nil =>
      have hbest : bestClusterScore residual_regions band_bbox_norm = none := by
        rw [bestClusterScore]
        simp [clusterScores, hcl]
      have hblock : _detect_credits_block residual_regions band_bbox_norm = none := by
        rw [_detect_credits_block, if_neg hres]
        simp [hcl]
      refine ⟨fun s hs => ?_, fun _ => hblock⟩
      rw [hbest] at hs
      cases hs
    | cons c0 ctl =>
      -- the non-degenerate case: clusters exist
      have hscores : clusterScores residual_regions band_bbox_norm =
          (_score_cluster c0 band_bbox_norm).1 ::
            ctl.map (fun c => (_score_cluster c band_bbox_norm).1) := by
        rw [clusterScores, hcl, List.map_cons]
      have hbest : bestClusterScore residual_regions band_bbox_norm =
          some ((ctl.map (fun c => (_score_cluster c band_bbox_norm).1)).foldl max
            ((_score_cluster c0 band_bbox_norm).1)) := by
        rw [bestClusterScore, hscores]
      set m := (ctl.map (fun c => (_score_cluster c band_bbox_norm).1)).foldl max
        ((_score_cluster c0 band_bbox_norm).1) with hm
      set scored := (c0 :: ctl).map (fun c =>
        ((_score_cluster c band_bbox_norm).1, (_score_cluster c band_bbox_norm).2, c))
        with hscored
      have hmapfst : scored.map (·.1) =
          clusterScores residual_regions band_bbox_norm := by
        rw [hscored, clusterScores, hcl, List.map_map]
        rfl
      have hlen : (List.insertionSort scoreDesc scored).length = scored.length :=
        (List.perm_insertionSort scoreDesc scored).length_eq
      cases hsorted : List.insertionSort scoreDesc scored with
      | nil =>
        rw [hsorted] at hlen
        rw [hscored] at hlen
        simp at hlen
      | cons hh tt =>
        obtain ⟨hhmem, hhmax⟩ := insertionSort_head_max scored hh tt hsorted
        have hh1m : hh.1 = m := by
          have h1 : hh.1 ≤ m := by
            have : hh.1 ∈ scored.map (·.1) := List.mem_map_of_mem (·.1) hhmem
            rw [hmapfst, hscores] at this
            exact le_foldl_max _ _ hh.1 this
          have h2 : m ≤ hh.1 := by
            have hmmem : m ∈ scored.map (·.1) := by
              rw [hmapfst, hscores]
              exact foldl_max_mem _ _
            obtain ⟨x, hxmem, hx1⟩ := List.mem_map.1 hmmem
            rw [← hx1]
            exact hhmax x hxmem
          exact le_antisymm h1 h2
        have hblock : _detect_credits_block residual_regions band_bbox_norm =
            (if hh.1 < 2 then none
             else
              let dominant_angle := (hh.2.1.map (·.angle_mean)).getD 0
              let qb := _compute_oriented_bbox_for_cluster hh.2.2
              let bbox_norm := qb.2
              some { geometry :=
                       { quad_norm := qb.1,
                         center_norm := ⟨(bbox_norm.getD 0 0 + bbox_norm.getD 2 0) / 2,
                                         (bbox_norm.getD 1 0 + bbox_norm.getD 3 0) / 2⟩,
                         angle_deg := dominant_angle,
                         bbox_norm := bbox_norm },
                     dominant_angle_deg := dominant_angle,
                     source_line_region_ids := [],
                     credit_groups := [],
                     confidence := min 1 (hh.1 / 5) }) := by
          rw [_detect_credits_block, if_neg hres]
          simp only [hcl]
          rw [← hscored]
          simp only [← hcl]
          rw [hsorted]
          simp [hcl]
        refine ⟨fun s hs => ?_, fun hnone => ?_⟩
        · rw [hbest] at hs
          injection hs with hs
          subst hs
          constructor
          · intro h2s
            have h2 : 2 ≤ hh.1 := by rw [hh1m]; exact h2s
            rw [hblock, if_neg (not_lt.2 h2)]
            refine ⟨_, rfl, ?_⟩
            show min 1 (hh.1 / 5) = min 1 (m / 5)
            rw [hh1m]
          · intro hlt
            have h2 : hh.1 < 2 := by rw [hh1m]; exact hlt
            rw [hblock, if_pos h2]
        · rw [hbest] at hnone
          cases hnone

/-- Witness for C1: a single tall region clusters alone, scores 0.5 (only
the angle-spread component fires), and the block is rejected. -/
theorem claim_c1_witness :
    bestClusterScore [exRejectRegion] [0, BOTTOM_BAND_Y_MIN, 1, BOTTOM_BAND_Y_MAX] =
      some (1 / 2) ∧
    _detect_credits_block [exRejectRegion] [0, BOTTOM_BAND_Y_MIN, 1, BOTTOM_BAND_Y_MAX] =
      none := by
  have hgeom : geometry_from_detected_text exRejectRegion =
      some { quad_norm := ⟨[⟨0, 0.75⟩, ⟨1, 0.75⟩, ⟨1, 0.95⟩, ⟨0, 0.95⟩]⟩,
             center_norm := ⟨1 / 2, 0.85⟩,
             angle_deg := 0,
             bbox_norm := [0, 0.75, 1, 0.95] } := by
    rw [geometry_attr_none exRejectRegion rfl, geometryFromBBox]
    norm_num [exRejectRegion]
  have hanchor : anchorHit "" = false := by decide
  have hcl : _cluster_regions [exRejectRegion] = [[exRejectRegion]] := by
    rw [_cluster_regions, if_neg (by simp)]
    simp [List.insertionSort, List.orderedInsert, clusterStep, hasBBox4,
      exRejectRegion, tryAttach]
  have hbb : hasBBox4 exRejectRegion = true := by decide
  have htext : exRejectRegion.text = "" := rfl
  have hbbox : exRejectRegion.boundingBox = [0, 0.75, 1, 0.95] := rfl
  have hscore1 : (_score_cluster [exRejectRegion]
      [0, BOTTOM_BAND_Y_MIN, 1, BOTTOM_BAND_Y_MAX]).1 = 1 / 2 := by
    rw [_score_cluster, if_neg (by simp), scoreCore]
    norm_num [hgeom, hbb, htext, hbbox, hanchor, font_height_from_geometry,
      height_from_bbox, pyMedian, pyMean, pySum, sampleVar, List.insertionSort,
      List.orderedInsert, qLe, pyMin, pyMax, BOTTOM_BAND_Y_MIN, BOTTOM_BAND_Y_MAX,
      CREDITS_LINE_COUNT_MIN, CREDITS_FONT_HEIGHT_MAX, CREDITS_ANGLE_STD_MAX,
      List.filter_cons, List.filterMap_cons]
    simp
  have hbest : bestClusterScore [exRejectRegion]
      [0, BOTTOM_BAND_Y_MIN, 1, BOTTOM_BAND_Y_MAX] = some (1 / 2) := by
    rw [bestClusterScore]
    rw [clusterScores, hcl, List.map_cons, List.map_nil, hscore1]
    rfl
  exact ⟨hbest,
    ((claim_c1_scoring_and_selection [exRejectRegion]
        [0, BOTTOM_BAND_Y_MIN, 1, BOTTOM_BAND_Y_MAX]).2.1 (1 / 2) hbest).2
      (by norm_num)⟩

/-! ## Claim C5: over/under pairing exclusivity and group partition -/

/-- Every candidate pair is strictly increasing and in range. -/
theorem over_under_pairs_bounds (ls : List CreditLine) :
    ∀ p ∈ over_under_pairs ls, p.1 < p.2 ∧ p.2 < ls.length := by
  intro p hp
  rw [over_under_pairs] at hp
  obtain ⟨i, hi, hp2⟩ := List.mem_flatMap.1 hp
  obtain ⟨j, hj, hp3⟩ := List.mem_filterMap.1 hp2
  split at hp3
  · rename_i hcond
    cases hp3
    exact ⟨hcond.1, List.mem_range.1 hj⟩
  · cases hp3

/-- Invariants of the greedy pair-consumption loop: the final used set is
the initial one plus both indices of each accepted pair; the accepted
indices are mutually distinct and disjoint from the initial used set; and
accepted pairs come from the candidate list. -/
theorem acceptPairs_spec : ∀ (ps : List (ℕ × ℕ)) (used : List ℕ),
    (∀ p ∈ ps, p.1 ≠ p.2) →
      (∀ x, x ∈ (acceptPairs ps used).2 ↔
        x ∈ used ∨ x ∈ ((acceptPairs ps used).1.map (fun p => [p.1, p.2])).flatten) ∧
      ((acceptPairs ps used).1.map (fun p => [p.1, p.2])).flatten.Nodup ∧
      (∀ x ∈ ((acceptPairs ps used).1.map (fun p => [p.1, p.2])).flatten, x ∉ used) ∧
      (∀ p ∈ (acceptPairs ps used).1, p ∈ ps)
  | [], used, _ => by
    refine ⟨fun x => ?_, ?_, ?_, ?_⟩ <;> simp [acceptPairs]
  | (i, j) :: ps, used, hne => by
    by_cases hu : i ∈ used ∨ j ∈ used
    · rw [acceptPairs, if_pos hu]
      obtain ⟨h1, h2, h3, h4⟩ :=
        acceptPairs_spec ps used (fun p hp => hne p (List.mem_cons_of_mem _ hp))
      exact ⟨h1, h2, h3, fun p hp => List.mem_cons_of_mem _ (h4 p hp)⟩
    · rw [acceptPairs, if_neg hu]
      push_neg at hu
      have hij : i ≠ j := hne (i, j) (List.mem_cons_self _ _)
      obtain ⟨h1, h2, h3, h4⟩ := acceptPairs_spec ps (used ++ [i, j])
        (fun p hp => hne p (List.mem_cons_of_mem _ hp))
      refine ⟨fun x => ?_, ?_, ?_, ?_⟩
      · simp only [List.map_cons, List.flatten_cons]
        rw [h1 x]
        simp only [List.mem_append, List.mem_cons, List.mem_singleton,
          List.not_mem_nil]
        constructor
        · rintro (hx | hx) <;> tauto
        · rintro (hx | hx) <;> tauto
      · simp only [List.map_cons, List.flatten_cons]
        have hi3 : i ∉ ((acceptPairs ps (used ++ [i, j])).1.map
            (fun p => [p.1, p.2])).flatten := by
          intro hmem
          have := h3 i hmem
          simp at this
        have hj3 : j ∉ ((acceptPairs ps (used ++ [i, j])).1.map
            (fun p => [p.1, p.2])).flatten := by
          intro hmem
          have := h3 j hmem
          simp at this
        refine List.nodup_cons.2 ⟨?_, List.nodup_cons.2 ⟨hj3, h2⟩⟩
        intro hmem
        rcases List.mem_cons.1 hmem with rfl | hmem
        · exact hij rfl
        · exact hi3 hmem
      · simp only [List.map_cons, List.flatten_cons]
        intro x hx
        rcases List.mem_cons.1 hx with rfl | hx
        · exact hu.1
        · rcases List.mem_cons.1 hx with rfl | hx
          · exact hu.2
          · intro hxu
            exact h3 x hx (List.mem_append_left _ hxu)
      · intro p hp
        rcases List.mem_cons.1 hp with rfl | hp
        · exact List.mem_cons_self _ _
        · exact List.mem_cons_of_mem _ (h4 p hp)

/-- Flattening singleton index lists recovers a plain filter. -/
theorem flatten_filterMap_singleton (l : List ℕ) (u : List ℕ) :
    (l.filterMap fun i => if i ∈ u then none else some [i]).flatten =
      l.filter (fun i => decide (i ∉ u)) := by
  induction l with
  | nil => rfl
  | cons a l ih =>
    by_cases ha : a ∈ u <;>
      simp [List.filterMap_cons, List.filter_cons, ha, ih]

/-- The index lists of the produced groups partition the credit line
indices. -/
theorem groupIndexLists_flatten_perm (ls : List CreditLine) :
    List.Perm (groupIndexLists ls).flatten (List.range ls.length) := by
  have hbounds := over_under_pairs_bounds ls
  have hne : ∀ p ∈ over_under_pairs ls, p.1 ≠ p.2 :=
    fun p hp => Nat.ne_of_lt (hbounds p hp).1
  obtain ⟨h1, h2, h3, h4⟩ := acceptPairs_spec (over_under_pairs ls) [] hne
  have hflt : ∀ x ∈ ((acceptPairs (over_under_pairs ls) []).1.map
      (fun p => [p.1, p.2])).flatten, x < ls.length := by
    intro x hx
    obtain ⟨l2, hl2, hxl2⟩ := List.mem_flatten.1 hx
    obtain ⟨p, hp, rfl⟩ := List.mem_map.1 hl2
    have hpb := hbounds p (h4 p hp)
    rcases List.mem_cons.1 hxl2 with rfl | hxl2
    · exact lt_trans hpb.1 hpb.2
    · rcases List.mem_singleton.1 hxl2 with rfl
      exact hpb.2
  rw [groupIndexLists, List.flatten_append, flatten_filterMap_singleton]
  refine (List.perm_ext_iff_of_nodup ?_ (List.nodup_range _)).2 ?_
  · refine List.Nodup.append h2 (List.Nodup.filter _ (List.nodup_range _)) ?_
    intro x hx hx2
    have hdec := (List.mem_filter.1 hx2).2
    rw [decide_eq_true_iff] at hdec
    exact hdec ((h1 x).2 (Or.inr hx))
  · intro x
    simp only [List.mem_append, List.mem_filter, List.mem_range,
      decide_eq_true_iff]
    constructor
    · rintro (hx | ⟨hxr, _⟩)
      · exact hflt x hx
      · exact hxr
    · intro hxn
      by_cases hxu : x ∈ (acceptPairs (over_under_pairs ls) []).2
      · rcases (h1 x).1 hxu with hx | hx
        · cases hx
        · exact Or.inl hx
      · exact Or.inr ⟨hxn, hxu⟩

/-- The produced groups carry exactly the lines of the index lists, pair
groups first with confidence 0.8, then singletons with confidence 0.6. -/
theorem group_credits_lines_shape (line_regions : List DetectedText) :
    (group_credits_lines line_regions).map (·.lines) =
      (groupIndexLists (creditLinesOf line_regions)).map
        (fun ix => ix.map (lineAt (creditLinesOf line_regions))) ∧
    ∀ g ∈ group_credits_lines line_regions,
      (g.lines.length = 2 ∧ g.confidence = 0.8) ∨
      (g.lines.length = 1 ∧ g.confidence = 0.6) := by
  constructor
  · rw [group_credits_lines, groupIndexLists]
    simp only [List.map_append, List.map_map, List.map_filterMap]
    congr 1
    apply List.filterMap_congr
    intro i _
    by_cases hi : i ∈ (acceptPairs (over_under_pairs (creditLinesOf line_regions)) []).2 <;>
      simp [hi, singleGroup, lineAt]
  · intro g hg
    rw [group_credits_lines] at hg
    rcases List.mem_append.1 hg with hg | hg
    · obtain ⟨p, hp, rfl⟩ := List.mem_map.1 hg
      exact Or.inl ⟨rfl, rfl⟩
    · obtain ⟨i, hi, hsome⟩ := List.mem_filterMap.1 hg
      split at hsome
      · cases hsome
      · cases hsome
        exact Or.inr ⟨rfl, rfl⟩

/-- Evaluation of the 3-line over/under scenario: lines 0-1 and 1-2 both
qualify, the greedy pass consumes line 1 in the first pair only, and line 2
becomes a singleton with confidence 0.6. -/
theorem exPair_scenario :
    groupIndexLists (creditLinesOf exPairRegions) = [[0, 1], [2]] ∧
    (group_credits_lines exPairRegions).map (·.confidence) = [0.8, 0.6] := by
  have hh0 : CREDITS_ROLE_ANCHORS.filter
      (fun a => strContains (pyLower "directed by") a) = ["directed by"] := by decide
  have hh1 : CREDITS_ROLE_ANCHORS.filter
      (fun a => strContains (pyLower "Jane Doe") a) = [] := by decide
  have hh2 : CREDITS_ROLE_ANCHORS.filter
      (fun a => strContains (pyLower "John Smith") a) = [] := by decide
  have hg0 : mkCreditLine exPairRegion0 = some
      { text := "directed by",
        geometry := { quad_norm := ⟨[⟨0, 0.1⟩, ⟨1, 0.1⟩, ⟨1, 0.11⟩, ⟨0, 0.11⟩]⟩,
                      center_norm := ⟨0.5, 0.105⟩,
                      angle_deg := 0,
                      bbox_norm := [0, 0.1, 1, 0.11] },
        font_height_norm := 0.01,
        hints := ["directed by"] } := by
    rw [mkCreditLine, geometry_attr_none _ rfl, geometryFromBBox]
    norm_num [exPairRegion0, font_height_from_geometry, height_from_bbox, hh0]
    intro h
    simp at h
  have hg1 : mkCreditLine exPairRegion1 = some
      { text := "Jane Doe",
        geometry := { quad_norm := ⟨[⟨0, 0.106⟩, ⟨1, 0.106⟩, ⟨1, 0.126⟩, ⟨0, 0.126⟩]⟩,
                      center_norm := ⟨0.5, 0.116⟩,
                      angle_deg := 0,
                      bbox_norm := [0, 0.106, 1, 0.126] },
        font_height_norm := 0.02,
        hints := [] } := by
    rw [mkCreditLine, geometry_attr_none _ rfl, geometryFromBBox]
    norm_num [exPairRegion1, font_height_from_geometry, height_from_bbox, hh1]
    intro h
    simp at h
  have hg2 : mkCreditLine exPairRegion2 = some
      { text := "John Smith",
        geometry := { quad_norm := ⟨[⟨0, 0.112⟩, ⟨1, 0.112⟩, ⟨1, 0.142⟩, ⟨0, 0.142⟩]⟩,
                      center_norm := ⟨0.5, 0.127⟩,
                      angle_deg := 0,
                      bbox_norm := [0, 0.112, 1, 0.142] },
        font_height_norm := 0.03,
        hints := [] } := by
    rw [mkCreditLine, geometry_attr_none _ rfl, geometryFromBBox]
    norm_num [exPairRegion2, font_height_from_geometry, height_from_bbox, hh2]
    intro h
    simp at h
  have hls : creditLinesOf exPairRegions =
      [{ text := "directed by",
         geometry := { quad_norm := ⟨[⟨0, 0.1⟩, ⟨1, 0.1⟩, ⟨1, 0.11⟩, ⟨0, 0.11⟩]⟩,
                       center_norm := ⟨0.5, 0.105⟩,
                       angle_deg := 0,
                       bbox_norm := [0, 0.1, 1, 0.11] },
         font_height_norm := 0.01,
         hints := ["directed by"] },
       { text := "Jane Doe",
         geometry := { quad_norm := ⟨[⟨0, 0.106⟩, ⟨1, 0.106⟩, ⟨1, 0.126⟩, ⟨0, 0.126⟩]⟩,
                       center_norm := ⟨0.5, 0.116⟩,
                       angle_deg := 0,
                       bbox_norm := [0, 0.106, 1, 0.126] },
         font_height_norm := 0.02,
         hints := [] },
       { text := "John Smith",
         geometry := { quad_norm := ⟨[⟨0, 0.112⟩, ⟨1, 0.112⟩, ⟨1, 0.142⟩, ⟨0, 0.142⟩]⟩,
                       center_norm := ⟨0.5, 0.127⟩,
                       angle_deg := 0,
                       bbox_norm := [0, 0.112, 1, 0.142] },
         font_height_norm := 0.03,
         hints := [] }] := by
    rw [creditLinesOf, exPairRegions]
    simp [List.filterMap_cons, hg0, hg1, hg2]
  have hr3 : List.range 3 = [0, 1, 2] := rfl
  have hq01 : qualifiesPair
      { text := "directed by",
        geometry := { quad_norm := ⟨[⟨0, 0.1⟩, ⟨1, 0.1⟩, ⟨1, 0.11⟩, ⟨0, 0.11⟩]⟩,
                      center_norm := ⟨0.5, 0.105⟩,
                      angle_deg := 0,
                      bbox_norm := [0, 0.1, 1, 0.11] },
        font_height_norm := 0.01,
        hints := ["directed by"] }
      { text := "Jane Doe",
        geometry := { quad_norm := ⟨[⟨0, 0.106⟩, ⟨1, 0.106⟩, ⟨1, 0.126⟩, ⟨0, 0.126⟩]⟩,
                      center_norm := ⟨0.5, 0.116⟩,
                      angle_deg := 0,
                      bbox_norm := [0, 0.106, 1, 0.126] },
        font_height_norm := 0.02,
        hints := [] } = true := by
    rw [qualifiesPair]
    simp only [bboxOrDefault, ne_eq, List.cons_ne_nil, not_false_eq_true, if_true,
      ite_true, List.getD, List.getElem?_cons_succ, List.getElem?_cons_zero,
      Option.getD_some]
    norm_num [OVER_UNDER_MAX_GAP_Y, OVER_UNDER_MIN_X_OVERLAP, min_def, max_def,
      abs_of_nonneg]
  have hq02 : qualifiesPair
      { text := "directed by",
        geometry := { quad_norm := ⟨[⟨0, 0.1⟩, ⟨1, 0.1⟩, ⟨1, 0.11⟩, ⟨0, 0.11⟩]⟩,
                      center_norm := ⟨0.5, 0.105⟩,
                      angle_deg := 0,
                      bbox_norm := [0, 0.1, 1, 0.11] },
        font_height_norm := 0.01,
        hints := ["directed by"] }
      { text := "John Smith",
        geometry := { quad_norm := ⟨[⟨0, 0.112⟩, ⟨1, 0.112⟩, ⟨1, 0.142⟩, ⟨0, 0.142⟩]⟩,
                      center_norm := ⟨0.5, 0.127⟩,
                      angle_deg := 0,
                      bbox_norm := [0, 0.112, 1, 0.142] },
        font_height_norm := 0.03,
        hints := [] } = false := by
    rw [qualifiesPair]
    simp only [bboxOrDefault, ne_eq, List.cons_ne_nil, not_false_eq_true, if_true,
      ite_true, List.getD, List.getElem?_cons_succ, List.getElem?_cons_zero,
      Option.getD_some]
    norm_num [OVER_UNDER_MAX_GAP_Y, OVER_UNDER_MIN_X_OVERLAP, min_def, max_def,
      abs_of_nonneg]
  have hq12 : qualifiesPair
      { text := "Jane Doe",
        geometry := { quad_norm := ⟨[⟨0, 0.106⟩, ⟨1, 0.106⟩, ⟨1, 0.126⟩, ⟨0, 0.126⟩]⟩,
                      center_norm := ⟨0.5, 0.116⟩,
                      angle_deg := 0,
                      bbox_norm := [0, 0.106, 1, 0.126] },
        font_height_norm := 0.02,
        hints := [] }
      { text := "John Smith",
        geometry := { quad_norm := ⟨[⟨0, 0.112⟩, ⟨1, 0.112⟩, ⟨1, 0.142⟩, ⟨0, 0.142⟩]⟩,
                      center_norm := ⟨0.5, 0.127⟩,
                      angle_deg := 0,
                      bbox_norm := [0, 0.112, 1, 0.142] },
        font_height_norm := 0.03,
        hints := [] } = true := by
    rw [qualifiesPair]
    simp only [bboxOrDefault, ne_eq, List.cons_ne_nil, not_false_eq_true, if_true,
      ite_true, List.getD, List.getElem?_cons_succ, List.getElem?_cons_zero,
      Option.getD_some]
    norm_num [OVER_UNDER_MAX_GAP_Y, OVER_UNDER_MIN_X_OVERLAP, min_def, max_def,
      abs_of_nonneg]
  have hpairs : over_under_pairs (creditLinesOf exPairRegions) = [(0, 1), (1, 2)] := by
    rw [over_under_pairs, hls]
    simp only [List.length_cons, List.length_nil]
    rw [hr3]
    simp [List.flatMap_cons, List.filterMap_cons, lineAt, hq01, hq02, hq12]
  have haccept : acceptPairs [(0, 1), (1, 2)] [] = ([(0, 1)], [0, 1]) := by decide
  constructor
  · rw [groupIndexLists, hpairs, haccept, hls]
    simp only [List.length_cons, List.length_nil]
    rw [hr3]
    simp [List.filterMap_cons]
  · rw [group_credits_lines]
    rw [hpairs, haccept, hls]
    simp only [List.length_cons, List.length_nil]
    rw [hr3]
    simp [List.filterMap_cons, pairGroup, singleGroup]

/-- C5: the group index lists partition the credit-line indices (each line
joins exactly one group); groups carry exactly the lines of those index
lists; every group has 1 or 2 lines, with confidence 0.8 for pairs and 0.6
for singletons; and in the 3-line scenario where lines 0-1 and 1-2 both
qualify, the pairing is exclusive: line 1 joins only the first pair and
line 2 is a singleton. -/
theorem claim_c5_grouping_partition (line_regions : List DetectedText) :
    List.Perm (groupIndexLists (creditLinesOf line_regions)).flatten
      (List.range (creditLinesOf line_regions).length) ∧
    (group_credits_lines line_regions).map (·.lines) =
      (groupIndexLists (creditLinesOf line_regions)).map
        (fun ix => ix.map (lineAt (creditLinesOf line_regions))) ∧
    (∀ g ∈ group_credits_lines line_regions,
      (g.lines.length = 2 ∧ g.confidence = 0.8) ∨
      (g.lines.length = 1 ∧ g.confidence = 0.6)) ∧
    groupIndexLists (creditLinesOf exPairRegions) = [[0, 1], [2]] ∧
    (group_credits_lines exPairRegions).map (·.confidence) = [0.8, 0.6] :=
  ⟨groupIndexLists_flatten_perm _, (group_credits_lines_shape _).1,
   (group_credits_lines_shape _).2, exPair_scenario.1, exPair_scenario.2⟩

/-- Witness for C5 at the concrete 3-line scenario. -/
theorem claim_c5_witness :
    List.Perm (groupIndexLists (creditLinesOf exPairRegions)).flatten
      (List.range (creditLinesOf exPairRegions).length) ∧
    groupIndexLists (creditLinesOf exPairRegions) = [[0, 1], [2]] :=
  ⟨(claim_c5_grouping_partition exPairRegions).1,
   (claim_c5_grouping_partition exPairRegions).2.2.2.1⟩

/-! ## Claims C8 and C9: group classification -/

/-- C8: every produced credit group is localizable iff its type is TITLE. -/
theorem claim_c8_localizable_iff_title (line_regions : List DetectedText) :
    ∀ g ∈ group_credits_lines line_regions,
      (g.localizable = true ↔ g.group_type = CreditGroupType.TITLE) := by
  intro g hg
  rw [group_credits_lines] at hg
  rcases List.mem_append.1 hg with hg | hg
  · obtain ⟨p, hp, rfl⟩ := List.mem_map.1 hg
    simp [pairGroup, decide_eq_true_iff]
  · obtain ⟨i, hi, hsome⟩ := List.mem_filterMap.1 hg
    split at hsome
    · cases hsome
    · cases hsome
      simp [singleGroup, decide_eq_true_iff]

/-- Evaluation of the credit line built from the "A.C.E." region. -/
theorem exACE_line : creditLinesOf [exACERegion] =
    [{ text := "A.C.E.",
       geometry := { quad_norm := ⟨[⟨0.1, 0.2⟩, ⟨0.3, 0.2⟩, ⟨0.3, 0.25⟩, ⟨0.1, 0.25⟩]⟩,
                     center_norm := ⟨0.2, 0.225⟩,
                     angle_deg := 0,
                     bbox_norm := [0.1, 0.2, 0.3, 0.25] },
       font_height_norm := 0.05,
       hints := [] }] := by
  have hh : CREDITS_ROLE_ANCHORS.filter
      (fun a => strContains (pyLower "A.C.E.") a) = [] := by decide
  have hg : mkCreditLine exACERegion = some
      { text := "A.C.E.",
        geometry := { quad_norm := ⟨[⟨0.1, 0.2⟩, ⟨0.3, 0.2⟩, ⟨0.3, 0.25⟩, ⟨0.1, 0.25⟩]⟩,
                      center_norm := ⟨0.2, 0.225⟩,
                      angle_deg := 0,
                      bbox_norm := [0.1, 0.2, 0.3, 0.25] },
        font_height_norm := 0.05,
        hints := [] } := by
    rw [mkCreditLine, geometry_attr_none _ rfl, geometryFromBBox]
    norm_num [exACERegion, font_height_from_geometry, height_from_bbox, hh]
    intro h
    simp at h
  rw [creditLinesOf]
  simp [List.filterMap_cons, hg]

/-- Evaluation of the single "A.C.E." group: CERTIFICATION, not localizable,
confidence 0.6. -/
theorem exACE_groups : group_credits_lines [exACERegion] =
    [{ group_type := CreditGroupType.CERTIFICATION,
       lines := [{ text := "A.C.E.",
                   geometry := { quad_norm :=
                                   ⟨[⟨0.1, 0.2⟩, ⟨0.3, 0.2⟩, ⟨0.3, 0.25⟩, ⟨0.1, 0.25⟩]⟩,
                                 center_norm := ⟨0.2, 0.225⟩,
                                 angle_deg := 0,
                                 bbox_norm := [0.1, 0.2, 0.3, 0.25] },
                   font_height_norm := 0.05,
                   hints := [] }],
       geometry := { quad_norm := ⟨[⟨0.1, 0.2⟩, ⟨0.3, 0.2⟩, ⟨0.3, 0.25⟩, ⟨0.1, 0.25⟩]⟩,
                     center_norm := ⟨0.2, 0.225⟩,
                     angle_deg := 0,
                     bbox_norm := [0.1, 0.2, 0.3, 0.25] },
       localizable := false,
       confidence := 0.6 }] := by
  have hclass : _classify_group
      [{ text := "A.C.E.",
         geometry := { quad_norm := ⟨[⟨0.1, 0.2⟩, ⟨0.3, 0.2⟩, ⟨0.3, 0.25⟩, ⟨0.1, 0.25⟩]⟩,
                       center_norm := ⟨0.2, 0.225⟩,
                       angle_deg := 0,
                       bbox_norm := [0.1, 0.2, 0.3, 0.25] },
         font_height_norm := 0.05,
         hints := [] }] = CreditGroupType.CERTIFICATION := by
    rw [_classify_group, if_neg (by simp), if_pos]
    rw [List.any_cons]
    have : certCond
        { text := "A.C.E.",
          geometry := { quad_norm := ⟨[⟨0.1, 0.2⟩, ⟨0.3, 0.2⟩, ⟨0.3, 0.25⟩, ⟨0.1, 0.25⟩]⟩,
                        center_norm := ⟨0.2, 0.225⟩,
                        angle_deg := 0,
                        bbox_norm := [0.1, 0.2, 0.3, 0.25] },
          font_height_norm := 0.05,
          hints := [] } = true := by decide
    rw [this]
    rfl
  rw [group_credits_lines, exACE_line]
  have hpairs : over_under_pairs
      [{ text := "A.C.E.",
         geometry := { quad_norm := ⟨[⟨0.1, 0.2⟩, ⟨0.3, 0.2⟩, ⟨0.3, 0.25⟩, ⟨0.1, 0.25⟩]⟩,
                       center_norm := ⟨0.2, 0.225⟩,
                       angle_deg := 0,
                       bbox_norm := [0.1, 0.2, 0.3, 0.25] },
         font_height_norm := 0.05,
         hints := [] }] = [] := by
    rw [over_under_pairs]
    simp
  rw [hpairs]
  have hr1 : List.range 1 = [0] := rfl
  simp [acceptPairs, singleGroup, lineAt, hclass, hr1, List.filterMap_cons,
    List.getD, List.getElem?_cons_zero, Option.getD_some]

/-- C9: the certification rule fires, with priority over the other rules,
whenever some line of a group has a stripped text shorter than 10 chars,
all-uppercase, containing a period and a known certification token; a line
whose text is exactly "A.C.E." satisfies that condition; and the group built
from the single "A.C.E." region is CERTIFICATION and not localizable. -/
theorem claim_c9_certification_rule (lines : List CreditLine) :
    ((∃ l ∈ lines, certCond l = true) →
      _classify_group lines = CreditGroupType.CERTIFICATION) ∧
    (∀ l : CreditLine, l.text = "A.C.E." → certCond l = true) ∧
    (group_credits_lines [exACERegion]).map (fun g => (g.group_type, g.localizable)) =
      [(CreditGroupType.CERTIFICATION, false)] := by
  refine ⟨?_, ?_, ?_⟩
  · rintro ⟨l, hl, hc⟩
    rw [_classify_group, if_neg (List.ne_nil_of_mem hl),
      if_pos (List.any_eq_true.2 ⟨l, hl, hc⟩)]
  · intro l hl
    rw [certCond, hl]
    decide
  · rw [exACE_groups]
    rfl

/-- Witness for C9: the certification rule applied to the concrete "A.C.E."
credit line list. -/
theorem claim_c9_witness :
    _classify_group (creditLinesOf [exACERegion]) = CreditGroupType.CERTIFICATION := by
  refine (claim_c9_certification_rule (creditLinesOf [exACERegion])).1 ?_
  rw [exACE_line]
  refine ⟨_, List.mem_singleton.2 rfl, ?_⟩
  decide

/-- Witness for C8 at the concrete "A.C.E." group. -/
theorem claim_c8_witness :
    ((false : Bool) = true ↔
      CreditGroupType.CERTIFICATION = CreditGroupType.TITLE) := by
  have h := claim_c8_localizable_iff_title [exACERegion]
    { group_type := CreditGroupType.CERTIFICATION,
      lines := [{ text := "A.C.E.",
                  geometry := { quad_norm :=
                                  ⟨[⟨0.1, 0.2⟩, ⟨0.3, 0.2⟩, ⟨0.3, 0.25⟩, ⟨0.1, 0.25⟩]⟩,
                                center_norm := ⟨0.2, 0.225⟩,
                                angle_deg := 0,
                                bbox_norm := [0.1, 0.2, 0.3, 0.25] },
                  font_height_norm := 0.05,
                  hints := [] }],
      geometry := { quad_norm := ⟨[⟨0.1, 0.2⟩, ⟨0.3, 0.2⟩, ⟨0.3, 0.25⟩, ⟨0.1, 0.25⟩]⟩,
                    center_norm := ⟨0.2, 0.225⟩,
                    angle_deg := 0,
                    bbox_norm := [0.1, 0.2, 0.3, 0.25] },
      localizable := false,
      confidence := 0.6 }
    (by rw [exACE_groups]; exact List.mem_singleton.2 rfl)
  exact h

/-! ## Claim C6: exception freedom of detect_credits_band (corrected) -/

/-- A left fold with min lands in the folded list. -/
theorem foldl_min_mem (a : ℚ) (l : List ℚ) : l.foldl min a ∈ a :: l := by
  induction l generalizing a with
  | nil => simp
  | cons b l ih =>
    simp only [List.foldl_cons]
    rcases List.mem_cons.1 (ih (min a b)) with h | h
    · rcases min_choice a b with hm | hm
      · exact List.mem_cons.2 (Or.inl (h.trans hm))
      · exact List.mem_cons.2 (Or.inr (List.mem_cons.2 (Or.inl (h.trans hm))))
    · exact List.mem_cons.2 (Or.inr (List.mem_cons.2 (Or.inr h)))

/-- pyMin of a non-empty list is one of its elements. -/
theorem pyMin_mem (l : List ℚ) (h : l ≠ []) : pyMin l ∈ l := by
  rcases l with _ | ⟨x, xs⟩
  · exact absurd rfl h
  · have : pyMin (x :: xs) = xs.foldl min x := by
      simp [pyMin, List.foldl_cons, min_self]
    rw [this]
    exact foldl_min_mem x xs

/-- pyMax of a non-empty list is one of its elements. -/
theorem pyMax_mem (l : List ℚ) (h : l ≠ []) : pyMax l ∈ l := by
  rcases l with _ | ⟨x, xs⟩
  · exact absurd rfl h
  · have : pyMax (x :: xs) = xs.foldl max x := by
      simp [pyMax, List.foldl_cons, max_self]
    rw [this]
    exact foldl_max_mem x xs

/-- A getD read within the first four entries stays in the list. -/
theorem bbox_getD_mem (l : List ℚ) (h : 4 ≤ l.length) (i : ℕ) (hi : i < 4) :
    l.getD i 0 ∈ l := by
  have hlen : i < l.length := lt_of_lt_of_le hi h
  rw [List.getD_eq_getElem l 0 hlen]
  exact List.getElem_mem hlen

/-- mkPointE succeeds exactly on in-range coordinates. -/
theorem mkPointE_some (x y : ℚ) (hx : 0 ≤ x ∧ x ≤ 1) (hy : 0 ≤ y ∧ y ≤ 1) :
    mkPointE x y = some ⟨x, y⟩ := by
  rw [mkPointE, if_pos ⟨hx.1, hx.2, hy.1, hy.2⟩]

/-- mapMO succeeds when every step succeeds. -/
theorem mapMO_some_of_forall (f : α → Option β) (l : List α)
    (h : ∀ a ∈ l, ∃ b, f a = some b) : ∃ bs, mapMO f l = some bs := by
  induction l with
  | nil => exact ⟨[], rfl⟩
  | cons a l ih =>
    obtain ⟨b, hb⟩ := h a (List.mem_cons_self _ _)
    obtain ⟨bs, hbs⟩ := ih (fun x hx => h x (List.mem_cons_of_mem _ hx))
    exact ⟨b :: bs, by rw [mapMO, hb, hbs]⟩

/-- Every output of a successful mapMO is the image of an input. -/
theorem mapMO_mem (f : α → Option β) :
    ∀ (l : List α) (bs : List β), mapMO f l = some bs →
      ∀ b ∈ bs, ∃ a ∈ l, f a = some b
  | [], bs, h => by
    rw [mapMO] at h
    cases h
    intro b hb
    cases hb
  | a :: l, bs, h => by
    rw [mapMO] at h
    cases hfa : f a with
    | none => rw [hfa] at h; cases h
    | some b0 =>
      rw [hfa] at h
      cases hrec : mapMO f l with
      | none => rw [hrec] at h; cases h
      | some bs0 =>
        rw [hrec] at h
        cases h
        intro b hb
        rcases List.mem_cons.1 hb with rfl | hb
        · exact ⟨a, List.mem_cons_self _ _, hfa⟩
        · obtain ⟨a', ha', hfa'⟩ := mapMO_mem f l bs0 hrec b hb
          exact ⟨a', List.mem_cons_of_mem _ ha', hfa'⟩

/-- The exception-aware bbox fallback geometry extraction never raises on a
region with in-range bbox entries, and the produced quad is in range. -/
theorem geometryFromBBoxE_range (r : DetectedText)
    (hr : ∀ q ∈ r.boundingBox, 0 ≤ q ∧ q ≤ 1) :
    (∃ og, geometryFromBBoxE r = some og) ∧
    (4 ≤ r.boundingBox.length → ∃ g, geometryFromBBoxE r = some (some g) ∧
      ∀ v ∈ g.quad_norm.vertices, pointOk v = true) := by
  by_cases hb : 4 ≤ r.boundingBox.length
  · have h0 := hr _ (bbox_getD_mem _ hb 0 (by norm_num))
    have h1 := hr _ (bbox_getD_mem _ hb 1 (by norm_num))
    have h2 := hr _ (bbox_getD_mem _ hb 2 (by norm_num))
    have h3 := hr _ (bbox_getD_mem _ hb 3 (by norm_num))
    have hc1 : 0 ≤ (r.boundingBox.getD 0 0 + r.boundingBox.getD 2 0) / 2 ∧
        (r.boundingBox.getD 0 0 + r.boundingBox.getD 2 0) / 2 ≤ 1 := by
      constructor <;> [linarith [h0.1, h2.1]; linarith [h0.2, h2.2]]
    have hc2 : 0 ≤ (r.boundingBox.getD 1 0 + r.boundingBox.getD 3 0) / 2 ∧
        (r.boundingBox.getD 1 0 + r.boundingBox.getD 3 0) / 2 ≤ 1 := by
      constructor <;> [linarith [h1.1, h3.1]; linarith [h1.2, h3.2]]
    have hE : geometryFromBBoxE r = some (some
        { quad_norm := ⟨[⟨r.boundingBox.getD 0 0, r.boundingBox.getD 1 0⟩,
                         ⟨r.boundingBox.getD 2 0, r.boundingBox.getD 1 0⟩,
                         ⟨r.boundingBox.getD 2 0, r.boundingBox.getD 3 0⟩,
                         ⟨r.boundingBox.getD 0 0, r.boundingBox.getD 3 0⟩]⟩,
          center_norm := ⟨(r.boundingBox.getD 0 0 + r.boundingBox.getD 2 0) / 2,
                          (r.boundingBox.getD 1 0 + r.boundingBox.getD 3 0) / 2⟩,
          angle_deg := 0,
          bbox_norm := [r.boundingBox.getD 0 0, r.boundingBox.getD 1 0,
                        r.boundingBox.getD 2 0, r.boundingBox.getD 3 0] }) := by
      simp only [geometryFromBBoxE, if_pos hb]
      rw [mkPointE_some _ _ h0 h1, mkPointE_some _ _ h2 h1, mkPointE_some _ _ h2 h3,
        mkPointE_some _ _ h0 h3, mkPointE_some _ _ hc1 hc2]
    refine ⟨⟨_, hE⟩, fun _ => ⟨_, hE, ?_⟩⟩
    intro v hv
    rw [pointOk, decide_eq_true_iff]
    rcases List.mem_cons.1 hv with rfl | hv
    · exact ⟨h0.1, h0.2, h1.1, h1.2⟩
    rcases List.mem_cons.1 hv with rfl | hv
    · exact ⟨h2.1, h2.2, h1.1, h1.2⟩
    rcases List.mem_cons.1 hv with rfl | hv
    · exact ⟨h2.1, h2.2, h3.1, h3.2⟩
    rcases List.mem_singleton.1 hv with rfl
    exact ⟨h0.1, h0.2, h3.1, h3.2⟩
  · have hE : geometryFromBBoxE r = some none := by
      rw [geometryFromBBoxE, if_neg hb]
    exact ⟨⟨none, hE⟩, fun hb4 => absurd hb4 hb⟩

/-- The exception-aware geometry extraction never raises on an in-range
region, and any produced quad is in range. -/
theorem geometryE_range (r : DetectedText) (hr : regionInRange r) :
    (∃ og, geometry_from_detected_textE r = some og) ∧
    (∀ g, geometry_from_detected_textE r = some (some g) →
      ∀ v ∈ g.quad_norm.vertices, pointOk v = true) ∧
    (4 ≤ r.boundingBox.length →
      ∃ g, geometry_from_detected_textE r = some (some g)) := by
  obtain ⟨hbox, hattr⟩ := hr
  rcases hga : r.geometryAttr with _ | ga
  · have hred : geometry_from_detected_textE r = geometryFromBBoxE r := by
      rw [geometry_from_detected_textE, hga]
    obtain ⟨he, hq⟩ := geometryFromBBoxE_range r hbox
    refine ⟨hred ▸ he, fun g hg v hv => ?_, fun hb => ?_⟩
    · rw [hred] at hg
      obtain ⟨g', hg', hv'⟩ := hq (by
        by_contra hlen
        rw [geometryFromBBoxE, if_neg hlen] at hg
        cases hg)
      rw [hg] at hg'
      cases hg'
      exact hv' v hv
    · obtain ⟨g', hg', _⟩ := hq hb
      exact ⟨g', hred ▸ hg'⟩
  · by_cases hq4 : 4 ≤ ga.quad_norm.length
    · have hall : (ga.quad_norm.take 4).all pointOk = true := by
        rw [List.all_eq_true]
        intro v hv
        exact ((hattr ga hga).1) v (List.mem_of_mem_take hv)
    -- the side-data branch validates the first four vertices and the center
      have hcond : (ga.quad_norm.take 4).all pointOk = true ∧
          pointOk ga.center_norm = true := ⟨hall, (hattr ga hga).2⟩
      have hE : geometry_from_detected_textE r = some (some
          { quad_norm := ⟨ga.quad_norm.take 4⟩,
            center_norm := ga.center_norm,
            angle_deg := ga.angle_deg,
            bbox_norm := bbox_from_quad ⟨ga.quad_norm.take 4⟩ }) := by
        rw [geometry_from_detected_textE, hga]
        simp only [if_pos hq4, if_pos hcond]
      refine ⟨⟨_, hE⟩, fun g hg v hv => ?_, fun _ => ⟨_, hE⟩⟩
      rw [hE] at hg
      cases hg
      exact (hattr ga hga).1 v (List.mem_of_mem_take hv)
    · have hred : geometry_from_detected_textE r = geometryFromBBoxE r := by
        rw [geometry_from_detected_textE, hga]
        simp only [if_neg hq4]
      obtain ⟨he, hq⟩ := geometryFromBBoxE_range r hbox
      refine ⟨hred ▸ he, fun g hg v hv => ?_, fun hb => ?_⟩
      · rw [hred] at hg
        obtain ⟨g', hg', hv'⟩ := hq (by
          by_contra hlen
          rw [geometryFromBBoxE, if_neg hlen] at hg
          cases hg)
        rw [hg] at hg'
        cases hg'
        exact hv' v hv
      · obtain ⟨g', hg', _⟩ := hq hb
        exact ⟨g', hred ▸ hg'⟩

/-- Exception-aware Pass 1 never raises on in-range regions, and residuals
come from the input. -/
theorem overlaysE_some (rs : List DetectedText) (hr : ∀ r ∈ rs, regionInRange r) :
    ∃ pr, _detect_credits_overlaysE rs = some pr ∧ ∀ x ∈ pr.2, x ∈ rs := by
  induction rs with
  | nil => exact ⟨([], []), rfl, by simp⟩
  | cons r rs ih =>
    obtain ⟨og, hog⟩ := (geometryE_range r (hr r (List.mem_cons_self _ _))).1
    obtain ⟨pr, hpr, hsub⟩ := ih (fun x hx => hr x (List.mem_cons_of_mem _ hx))
    have ho : ∃ o, overlayForE r = some o := by
      rw [overlayForE, hog]
      exact ⟨_, rfl⟩
    obtain ⟨o, ho⟩ := ho
    rw [_detect_credits_overlaysE, ho, hpr]
    cases o with
    | some e =>
      exact ⟨(e :: pr.1, pr.2), rfl, fun x hx => List.mem_cons_of_mem _ (hsub x hx)⟩
    | none =>
      refine ⟨(pr.1, r :: pr.2), rfl, fun x hx => ?_⟩
      rcases List.mem_cons.1 hx with rfl | hx
      · exact List.mem_cons_self _ _
      · exact List.mem_cons_of_mem _ (hsub x hx)

/-- A non-degenerate cluster always yields populated stats. -/
theorem scoreCore_stats (cl : List DetectedText) (geoms : List RegionGeometry)
    (band : List ℚ) (hne : cl ≠ []) (hbb : ∀ r ∈ cl, hasBBox4 r = true) :
    ∃ s st, scoreCore cl geoms band = (s, some st) := by
  have hfilter : cl.filter hasBBox4 = cl := List.filter_eq_self.2 hbb
  have hx : (cl.filter hasBBox4).flatMap
      (fun r => [r.boundingBox.getD 0 0, r.boundingBox.getD 2 0]) ≠ [] := by
    rw [hfilter]
    rcases cl with _ | ⟨r, rs⟩
    · exact absurd rfl hne
    · simp [List.flatMap_cons]
  have hy : (cl.filter hasBBox4).flatMap
      (fun r => [r.boundingBox.getD 1 0, r.boundingBox.getD 3 0]) ≠ [] := by
    rw [hfilter]
    rcases cl with _ | ⟨r, rs⟩
    · exact absurd rfl hne
    · simp [List.flatMap_cons]
  rw [scoreCore]
  simp only [if_neg (by push_neg; exact ⟨hx, hy⟩ :
    ¬ ((cl.filter hasBBox4).flatMap
        (fun r => [r.boundingBox.getD 0 0, r.boundingBox.getD 2 0]) = [] ∨
      (cl.filter hasBBox4).flatMap
        (fun r => [r.boundingBox.getD 1 0, r.boundingBox.getD 3 0]) = []))]
  exact ⟨_, _, rfl⟩

/-- Exception-aware scoring never raises on an in-range non-degenerate
cluster and returns populated stats. -/
theorem scoreE_some (cl : List DetectedText) (band : List ℚ) (hne : cl ≠ [])
    (h : ∀ r ∈ cl, regionInRange r ∧ hasBBox4 r = true) :
    ∃ s st, _score_clusterE cl band = some (s, some st) := by
  rw [_score_clusterE, if_neg hne]
  obtain ⟨gs, hgs⟩ := mapMO_some_of_forall geometry_from_detected_textE cl
    (fun r hr => (geometryE_range r (h r hr).1).1)
  rw [hgs, Option.map_some']
  obtain ⟨s, st, hsc⟩ := scoreCore_stats cl gs.reduceOption band hne
    (fun r hr => (h r hr).2)
  exact ⟨s, st, by rw [hsc]⟩

/-- Exception-aware oriented-bbox computation never raises on in-range
regions; the resulting bbox has 4 in-range entries. -/
theorem orientedE_some (cl : List DetectedText) (h : ∀ r ∈ cl, regionInRange r) :
    ∃ qb, _compute_oriented_bbox_for_clusterE cl = some qb ∧
      qb.2.length = 4 ∧ ∀ q ∈ qb.2, 0 ≤ q ∧ q ≤ 1 := by
  obtain ⟨gs, hgs⟩ := mapMO_some_of_forall geometry_from_detected_textE cl
    (fun r hr => (geometryE_range r (h r hr)).1)
  have hptsok : ∀ p ∈ gs.reduceOption.flatMap (·.quad_norm.vertices),
      0 ≤ p.x ∧ p.x ≤ 1 ∧ 0 ≤ p.y ∧ p.y ≤ 1 := by
    intro p hp
    obtain ⟨g, hg, hpg⟩ := List.mem_flatMap.1 hp
    have hsome : some g ∈ gs := List.reduceOption_mem_iff.1 hg
    obtain ⟨r, hrc, hfr⟩ := mapMO_mem _ cl gs hgs (some g) hsome
    have := (geometryE_range r (h r hrc)).2.1 g hfr p hpg
    rwa [pointOk, decide_eq_true_iff] at this
  simp only [_compute_oriented_bbox_for_clusterE, hgs, Option.some_bind]
  by_cases hemp : (gs.reduceOption.flatMap (·.quad_norm.vertices)).map (·.x) = [] ∨
      (gs.reduceOption.flatMap (·.quad_norm.vertices)).map (·.y) = []
  · rw [if_pos hemp]
    refine ⟨_, rfl, rfl, fun q hq => ?_⟩
    rcases List.mem_cons.1 hq with rfl | hq
    · norm_num
    rcases List.mem_cons.1 hq with rfl | hq
    · norm_num
    rcases List.mem_cons.1 hq with rfl | hq
    · norm_num
    rcases List.mem_singleton.1 hq with rfl
    norm_num
  · rw [if_neg hemp]
    push_neg at hemp
    have hxb : 0 ≤ pyMin ((gs.reduceOption.flatMap (·.quad_norm.vertices)).map (·.x)) ∧
        pyMin ((gs.reduceOption.flatMap (·.quad_norm.vertices)).map (·.x)) ≤ 1 := by
      obtain ⟨p, hp, he⟩ := List.mem_map.1 (pyMin_mem _ hemp.1)
      rw [← he]
      exact ⟨(hptsok p hp).1, (hptsok p hp).2.1⟩
    have hXb : 0 ≤ pyMax ((gs.reduceOption.flatMap (·.quad_norm.vertices)).map (·.x)) ∧
        pyMax ((gs.reduceOption.flatMap (·.quad_norm.vertices)).map (·.x)) ≤ 1 := by
      obtain ⟨p, hp, he⟩ := List.mem_map.1 (pyMax_mem _ hemp.1)
      rw [← he]
      exact ⟨(hptsok p hp).1, (hptsok p hp).2.1⟩
    have hyb : 0 ≤ pyMin ((gs.reduceOption.flatMap (·.quad_norm.vertices)).map (·.y)) ∧
        pyMin ((gs.reduceOption.flatMap (·.quad_norm.vertices)).map (·.y)) ≤ 1 := by
      obtain ⟨p, hp, he⟩ := List.mem_map.1 (pyMin_mem _ hemp.2)
      rw [← he]
      exact ⟨(hptsok p hp).2.2.1, (hptsok p hp).2.2.2⟩
    have hYb : 0 ≤ pyMax ((gs.reduceOption.flatMap (·.quad_norm.vertices)).map (·.y)) ∧
        pyMax ((gs.reduceOption.flatMap (·.quad_norm.vertices)).map (·.y)) ≤ 1 := by
      obtain ⟨p, hp, he⟩ := List.mem_map.1 (pyMax_mem _ hemp.2)
      rw [← he]
      exact ⟨(hptsok p hp).2.2.1, (hptsok p hp).2.2.2⟩
    rw [mkPointE_some _ _ hxb hyb, mkPointE_some _ _ hXb hyb,
      mkPointE_some _ _ hXb hYb, mkPointE_some _ _ hxb hYb]
    refine ⟨_, rfl, rfl, fun q hq => ?_⟩
    rcases List.mem_cons.1 hq with rfl | hq
    · exact hxb
    rcases List.mem_cons.1 hq with rfl | hq
    · exact hyb
    rcases List.mem_cons.1 hq with rfl | hq
    · exact hXb
    rcases List.mem_singleton.1 hq with rfl
    exact hYb

/-- Exception-aware Pass 2 never raises on in-range residual regions; any
accepted block has a confidence in [0, 1]. -/
theorem blockE_some (residual_regions : List DetectedText) (band : List ℚ)
    (h : ∀ r ∈ residual_regions, regionInRange r) :
    ∃ ob, _detect_credits_blockE residual_regions band = some ob ∧
      ∀ blk, ob = some blk → 0 ≤ blk.confidence ∧ blk.confidence ≤ 1 := by
  by_cases hres : residual_regions = []
  · refine ⟨none, ?_, by simp⟩
    rw [_detect_credits_blockE, if_pos hres]
  simp only [_detect_credits_blockE, if_neg hres]
  by_cases hcl : _cluster_regions residual_regions = []
  · rw [if_pos hcl]
    exact ⟨none, rfl, by simp⟩
  rw [if_neg hcl]
  have hcprops : ∀ c ∈ _cluster_regions residual_regions,
      c ≠ [] ∧ ∀ r ∈ c, regionInRange r ∧ hasBBox4 r = true := by
    intro c hc
    refine ⟨clusters_ne_nil _ c hc, fun r hr => ?_⟩
    obtain ⟨hrin, hrbb⟩ := cluster_member_of_mem _ c hc r hr
    exact ⟨h r hrin, hrbb⟩
  obtain ⟨scored, hscored⟩ := mapMO_some_of_forall
    (fun c => (_score_clusterE c band).map fun p => (p.1, p.2, c))
    (_cluster_regions residual_regions)
    (by
      intro c hc
      obtain ⟨s, st, hsc⟩ := scoreE_some c band (hcprops c hc).1 (hcprops c hc).2
      exact ⟨(s, some st, c), by simp only [hsc, Option.map_some']⟩)
  have hstats : ∀ t ∈ scored, t.2.1.isSome = true := by
    intro t ht
    obtain ⟨c, hc, hfc⟩ := mapMO_mem _ _ scored hscored t ht
    obtain ⟨s, st, hsc⟩ := scoreE_some c band (hcprops c hc).1 (hcprops c hc).2
    rw [hsc, Option.map_some'] at hfc
    cases hfc
    rfl
  have hcluster_of : ∀ t ∈ scored, t.2.2 ∈ _cluster_regions residual_regions := by
    intro t ht
    obtain ⟨c, hc, hfc⟩ := mapMO_mem _ _ scored hscored t ht
    obtain ⟨s, st, hsc⟩ := scoreE_some c band (hcprops c hc).1 (hcprops c hc).2
    rw [hsc, Option.map_some'] at hfc
    cases hfc
    exact hc
  rw [hscored, Option.some_bind]
  have hperm := List.perm_insertionSort scoreDesc scored
  have hall : ((List.insertionSort scoreDesc scored).take 3).all
      (fun t => t.2.1.isSome) = true := by
    rw [List.all_eq_true]
    intro t ht
    exact hstats t (hperm.mem_iff.1 (List.mem_of_mem_take ht))
  rw [if_neg (by rw [hall]; intro hc; exact hc rfl)]
  split
  · exact ⟨none, rfl, by simp⟩
  · rename_i best_score best_stats best_cluster tail heq
    have hhmem : (best_score, best_stats, best_cluster) ∈ scored := by
      rw [← hperm.mem_iff, heq]
      exact List.mem_cons_self _ _
    by_cases hlt : best_score < 2
    · rw [if_pos hlt]
      exact ⟨none, rfl, by simp⟩
    rw [if_neg hlt]
    obtain ⟨st, hst'⟩ := Option.isSome_iff_exists.1 (hstats _ hhmem)
    have hst : best_stats = some st := hst'
    have hbcmem := hcluster_of _ hhmem
    obtain ⟨qb, hqb, hqblen, hqbounds⟩ := orientedE_some best_cluster (by
      intro r hr
      exact ((hcprops best_cluster hbcmem).2 r hr).1)
    have hb0 := hqbounds _ (bbox_getD_mem qb.2 (le_of_eq hqblen.symm) 0 (by norm_num))
    have hb1 := hqbounds _ (bbox_getD_mem qb.2 (le_of_eq hqblen.symm) 1 (by norm_num))
    have hb2 := hqbounds _ (bbox_getD_mem qb.2 (le_of_eq hqblen.symm) 2 (by norm_num))
    have hb3 := hqbounds _ (bbox_getD_mem qb.2 (le_of_eq hqblen.symm) 3 (by norm_num))
    have h2bs : (2 : ℚ) ≤ best_score := not_lt.1 hlt
    have hconf : 0 ≤ min (1 : ℚ) (best_score / 5) ∧ min (1 : ℚ) (best_score / 5) ≤ 1 :=
      ⟨le_min (by norm_num) (by positivity), min_le_left _ _⟩
    rw [hst]
    split
    · rename_i heq2
      cases heq2
    · rename_i st2 heq2
      injection heq2 with heq2
      subst heq2
      rw [hqb, Option.some_bind,
        mkPointE_some _ _
          ⟨by linarith [hb0.1, hb2.1], by linarith [hb0.2, hb2.2]⟩
          ⟨by linarith [hb1.1, hb3.1], by linarith [hb1.2, hb3.2]⟩, Option.some_bind]
      rw [if_pos hconf]
      refine ⟨_, rfl, fun blk hblk => ?_⟩
      cases hblk
      exact hconf

/-- The selected band regions come from the input list. -/
theorem select_band_subset (line_regions : List DetectedText) :
    ∀ x ∈ (_select_candidate_band line_regions).2.2, x ∈ line_regions := by
  intro x hx
  simp only [_select_candidate_band] at hx
  split_ifs at hx
  · exact List.mem_of_mem_filter hx
  · exact List.mem_of_mem_filter hx
  · exact absurd hx (List.not_mem_nil x)

/-- C6 (amended): on inputs whose coordinates are normalized to [0, 1] —
which is what the OCR client produces — detect_credits_band returns a value
(a detection or `none`) and never raises: short or degenerate geometry only
degrades the result.  (As originally stated, over arbitrary inputs, the
claim fails: see the counterexample.) -/
theorem claim_c6_no_raise_on_normalized (line_regions : List DetectedText)
    (h : ∀ r ∈ line_regions, regionInRange r) :
    ∃ v, detect_credits_bandE line_regions = some v := by
  have hsub := select_band_subset line_regions
  simp only [detect_credits_bandE]
  by_cases hb : (_select_candidate_band line_regions).2.2 = []
  · rw [if_pos hb]
    exact ⟨none, rfl⟩
  rw [if_neg hb]
  obtain ⟨pr, hpr, hprsub⟩ := overlaysE_some _ (fun r hr => h r (hsub r hr))
  rw [hpr, Option.some_bind]
  have hresrange : ∀ r ∈ pr.2, regionInRange r :=
    fun r hr => h r (hsub r (hprsub r hr))
  by_cases hres : pr.2 ≠ []
  · rw [if_pos hres]
    obtain ⟨ob, hob, hconf⟩ := blockE_some pr.2 _ hresrange
    rw [hob, Option.some_bind]
    cases ob with
    | none =>
      rw [if_pos (by norm_num : (0 : ℚ) ≤ (Option.map
        (fun b => b.confidence) (none : Option CreditsBlock)).getD 0 ∧
        (Option.map (fun b => b.confidence) (none : Option CreditsBlock)).getD 0 ≤ 1)]
      exact ⟨_, rfl⟩
    | some blk =>
      rw [if_pos (by simpa using hconf blk rfl)]
      exact ⟨_, rfl⟩
  · rw [if_neg hres, Option.some_bind]
    rw [if_pos (by norm_num : (0 : ℚ) ≤ (Option.map
      (fun b => b.confidence) (none : Option CreditsBlock)).getD 0 ∧
      (Option.map (fun b => b.confidence) (none : Option CreditsBlock)).getD 0 ≤ 1)]
    exact ⟨_, rfl⟩

/-- Witness for the amended C6: a normalized in-band region yields a value. -/
theorem claim_c6_witness :
    ∃ v, detect_credits_bandE [exBottomRegion] = some v := by
  refine claim_c6_no_raise_on_normalized [exBottomRegion] ?_
  intro r hr
  rcases List.mem_singleton.1 hr with rfl
  constructor
  · intro q hq
    rcases List.mem_cons.1 hq with rfl | hq
    · norm_num
    rcases List.mem_cons.1 hq with rfl | hq
    · norm_num
    rcases List.mem_cons.1 hq with rfl | hq
    · norm_num
    rcases List.mem_singleton.1 hq with rfl
    norm_num
  · intro g hg
    cases hg

/-- Counterexample to C6 as stated: a band region with an out-of-range bbox
x coordinate makes detect_credits_band raise (pydantic PointNorm validation)
instead of returning; the exception-aware embedding returns `none`. -/
theorem claim_c6_counterexample :
    detect_credits_bandE [exOutOfRangeRegion] = none := by
  have hgF : geometryFromBBoxE exOutOfRangeRegion = none := by
    simp only [geometryFromBBoxE,
      if_pos (by norm_num [exOutOfRangeRegion] : 4 ≤ exOutOfRangeRegion.boundingBox.length)]
    have h0 : exOutOfRangeRegion.boundingBox.getD 0 0 = 5 := rfl
    have h1 : exOutOfRangeRegion.boundingBox.getD 1 0 = 0.8 := rfl
    rw [h0, h1, mkPointE, if_neg (by norm_num)]
  have hgE : geometry_from_detected_textE exOutOfRangeRegion = none := by
    have hred : geometry_from_detected_textE exOutOfRangeRegion =
        geometryFromBBoxE exOutOfRangeRegion := rfl
    rw [hred, hgF]
  have hovE : overlayForE exOutOfRangeRegion = none := by
    rw [overlayForE, hgE]
    rfl
  have hpassE : _detect_credits_overlaysE [exOutOfRangeRegion] = none := by
    rw [_detect_credits_overlaysE, hovE]
  have hsel : _select_candidate_band [exOutOfRangeRegion] =
      ("BOTTOM_BAND", [0, BOTTOM_BAND_Y_MIN, 1, BOTTOM_BAND_Y_MAX],
        [exOutOfRangeRegion]) := by
    have hib : inBand BOTTOM_BAND_Y_MIN BOTTOM_BAND_Y_MAX exOutOfRangeRegion = true := by
      rw [inBand]
      norm_num [exOutOfRangeRegion, BOTTOM_BAND_Y_MIN, BOTTOM_BAND_Y_MAX]
    have hf : [exOutOfRangeRegion].filter
        (inBand BOTTOM_BAND_Y_MIN BOTTOM_BAND_Y_MAX) = [exOutOfRangeRegion] := by
      rw [List.filter_cons, if_pos hib]
      rfl
    rw [_select_candidate_band, hf]
    simp
  simp only [detect_credits_bandE, hsel]
  rw [if_neg (by simp), hpassE]
  rfl

end MediaPromo
